import Mathlib

/-!
# Verification of the NFC reader/writer tag-I/O core

A shallow embedding of `src/nfc_gui/nfc_handler.py` and
`src/nfc_gui/settings.py`.

Strings stored on tags are modelled as lists of natural numbers (their
UTF-8 bytes); Python `str` values used only as callback messages are
modelled as Lean `String`s.  The third-party `ndef` library
(`ndef.UriRecord`, `ndef.message_encoder`, `ndef.message_decoder`,
`ndef.TextRecord`), which the source calls for record-level
encoding/decoding, is modelled after the NFC URI/Text RTD wire format it
implements; chunked records (CF flag set) and records of reserved TNF
are modelled as decode errors, matching the strict decoding mode the
source uses (`list(ndef.message_decoder(...))` with default
`errors='strict'`), where such messages raise `DecodeError` — which the
source catches and treats as "no record".
-/

namespace NFC

/-- UTF-8 bytes of an ASCII string literal (used to spell byte constants). -/
def strBytes (s : String) : List Nat := s.data.map Char.toNat

/-- The NFC URI-record abbreviation table used by `ndef.UriRecord`
(identifier code 0 means "no abbreviation"). -/
def uriPrefixTable : List (List Nat) :=
  [strBytes "", strBytes "http://www.", strBytes "https://www.",
   strBytes "http://", strBytes "https://", strBytes "tel:",
   strBytes "mailto:", strBytes "ftp://anonymous:anonymous@",
   strBytes "ftp://ftp.", strBytes "ftps://", strBytes "sftp://",
   strBytes "smb://", strBytes "nfs://", strBytes "ftp://",
   strBytes "dav://", strBytes "news:", strBytes "telnet://",
   strBytes "imap:", strBytes "rtsp://", strBytes "urn:",
   strBytes "pop:", strBytes "sip:", strBytes "sips:",
   strBytes "tftp:", strBytes "btspp://", strBytes "btl2cap://",
   strBytes "btgoep://", strBytes "tcpobex://", strBytes "irdaobex://",
   strBytes "file://", strBytes "urn:epc:id:", strBytes "urn:epc:tag:",
   strBytes "urn:epc:pat:", strBytes "urn:epc:raw:", strBytes "urn:epc:",
   strBytes "urn:nfc:"]

/-- `ndef.UriRecord._encode_payload`: the first table index `i ≥ 1` whose
prefix starts the URI is abbreviated away; otherwise code 0 is used. -/
def uriPrefixSelect (u : List Nat) : Nat × List Nat :=
  match ((List.range 36).drop 1).find? (fun i => (uriPrefixTable.getD i []).isPrefixOf u) with
  | some i => (i, u.drop (uriPrefixTable.getD i []).length)
  | none => (0, u)

/-- The URI record payload: identifier code followed by the rest of the URI. -/
def uriPayload (u : List Nat) : List Nat :=
  (uriPrefixSelect u).1 :: (uriPrefixSelect u).2

/-- `b''.join(ndef.message_encoder([ndef.UriRecord(url)]))`: one well-known
URI record with MB, ME set; short-record form when the payload fits a byte. -/
def encodeNdefMessageUri (u : List Nat) : List Nat :=
  let p := uriPayload u
  if p.length < 256 then
    0xD1 :: 0x01 :: p.length :: 0x55 :: p
  else
    0xC1 :: 0x01 :: (p.length / 2 ^ 24 % 256) :: (p.length / 2 ^ 16 % 256) ::
      (p.length / 2 ^ 8 % 256) :: (p.length % 256) :: 0x55 :: p

/-- `NFCHandler.create_ndef_record`: TLV-wrap the encoded message
(`0x03`, length byte, value, `0xFE` terminator) and zero-pad to a 4-byte
boundary.  `message_length.to_bytes(1, 'big')` raises `OverflowError` for
messages over 255 bytes, so the result is `none` there (the callers catch
the exception). -/
def create_ndef_record (url : List Nat) : Option (List Nat) :=
  let m := encodeNdefMessageUri url
  if m.length ≤ 255 then
    let tlv := 0x03 :: m.length :: (m ++ [0xFE])
    some (tlv ++ List.replicate ((4 - tlv.length % 4) % 4) 0)
  else none

/-- Decoded NDEF records, as far as `read_ndef_message` inspects them:
URI records (have `.uri`), text records (have `.text`), anything else. -/
inductive NdefRec : Type
  | uriR (u : List Nat)
  | textR (t : List Nat)
  | otherR
deriving DecidableEq, Repr

/-- `ndef.uri.UriRecord._decode_payload`: identifier code then URI tail;
a reserved code (≥ 36) is a strict-mode decode error. -/
def decodeUriPayload : List Nat → Option (List Nat)
  | [] => none
  | c :: r => if c < 36 then some (uriPrefixTable.getD c [] ++ r) else none

/-- `ndef.text.TextRecord._decode_payload`: status byte (low 6 bits =
language-code length) then language code then text. -/
def decodeTextPayload : List Nat → Option (List Nat)
  | [] => none
  | s :: r => some (r.drop (s % 64))

/-- Parse the body of one NDEF record after its header byte `h`: type
length, payload length (1 byte in short-record form, else 4), optional
id length, then type / id / payload.  `none` models `ndef.DecodeError`
(truncation, chunked records, reserved TNF, bad known-type payload). -/
def parseRecordBody (h : Nat) (t : List Nat) : Option (NdefRec × List Nat) :=
  if h / 32 % 2 = 1 then none
  else if h % 8 = 6 ∨ h % 8 = 7 then none
  else
    match t with
    | [] => none
    | tl :: t2 =>
      let plRes : Option (Nat × List Nat) :=
        if h / 16 % 2 = 1 then
          match t2 with
          | [] => none
          | pl :: t3 => some (pl, t3)
        else
          match t2 with
          | a :: b :: c :: d :: t3 => some (((a * 256 + b) * 256 + c) * 256 + d, t3)
          | _ => none
      match plRes with
      | none => none
      | some (pl, t3) =>
        let ilRes : Option (Nat × List Nat) :=
          if h / 8 % 2 = 1 then
            match t3 with
            | [] => none
            | x :: t4 => some (x, t4)
          else some (0, t3)
        match ilRes with
        | none => none
        | some (idl, t4) =>
          if tl ≤ t4.length then
            let ty := t4.take tl
            let t5 := t4.drop tl
            if idl ≤ t5.length then
              let t6 := t5.drop idl
              if pl ≤ t6.length then
                let pay := t6.take pl
                let rest := t6.drop pl
                let rec? : Option NdefRec :=
                  if h % 8 = 1 ∧ ty = [0x55] then
                    (decodeUriPayload pay).map NdefRec.uriR
                  else if h % 8 = 1 ∧ ty = [0x54] then
                    (decodeTextPayload pay).map NdefRec.textR
                  else some NdefRec.otherR
                rec?.map (fun r => (r, rest))
              else none
            else none
          else none

/-- Parse one NDEF record: its body plus the MB and ME header flags. -/
def parseRecord : List Nat → Option (NdefRec × Bool × Bool × List Nat)
  | [] => none
  | h :: t =>
    (parseRecordBody h t).map
      (fun rr => (rr.1, decide (h / 128 % 2 = 1), decide (h / 64 % 2 = 1), rr.2))

/-- Decode a record sequence: the first record must carry MB, later ones
must not; stop at the record carrying ME; running out of bytes before ME
is an error.  Fuel bounds the recursion (each record consumes ≥ 1 byte). -/
def decodeRecordsAux : Nat → Bool → List Nat → Option (List NdefRec)
  | 0, _, _ => none
  | n + 1, first, bs =>
    match parseRecord bs with
    | none => none
    | some (r, mb, me, rest) =>
      if first ∧ ¬ mb then none
      else if ¬ first ∧ mb then none
      else if me then some [r]
      else
        match decodeRecordsAux n false rest with
        | none => none
        | some rs => some (r :: rs)

/-- `list(ndef.message_decoder(payload))` in strict mode: `none` models a
raised `DecodeError`. -/
def decodeNdefMessage (bs : List Nat) : Option (List NdefRec) :=
  decodeRecordsAux (bs.length + 1) true bs

/-- The record loop of `read_ndef_message`: return the first record whose
`uri` (or, failing that, `text`) attribute is truthy. -/
def findUriOrText : List NdefRec → Option (List Nat)
  | [] => none
  | NdefRec.uriR u :: rs => if u ≠ [] then some u else findUriOrText rs
  | NdefRec.textR t :: rs => if t ≠ [] then some t else findUriOrText rs
  | NdefRec.otherR :: rs => findUriOrText rs

/-- The TLV scan of `read_ndef_message`: for each `i < len - 2`, if
`data[i] = 0x03` and the following length byte is positive and in bounds,
try to decode the window as an NDEF message; a decode error or a message
with no truthy uri/text record continues the scan.  The loop index
advances by 1 per iteration and the loop stops once it reaches
`len - 2`, so a fuel of `data.length`, consumed one unit per iteration,
never runs out. -/
def ndefTlvScanAux (data : List Nat) : Nat → Nat → Option (List Nat)
  | 0, _ => none
  | fuel + 1, i =>
    if i + 2 < data.length then
      if data.getD i 0 = 3 then
        let L := data.getD (i + 1) 0
        if 0 < L ∧ i + 2 + L ≤ data.length then
          match decodeNdefMessage ((data.drop (i + 2)).take L) with
          | some rs =>
            match findUriOrText rs with
            | some u => some u
            | none => ndefTlvScanAux data fuel (i + 1)
          | none => ndefTlvScanAux data fuel (i + 1)
        else ndefTlvScanAux data fuel (i + 1)
      else ndefTlvScanAux data fuel (i + 1)
    else none

/-- The TLV scan started at offset 0. -/
def ndefTlvScan (data : List Nat) : Option (List Nat) :=
  ndefTlvScanAux data data.length 0

/-!
## Tag and transport model

An NTAG tag is a list of 4-byte pages (index = page number).  Page reads
always succeed and return the stored bytes.  Each `_pcsc_write_page` call
made by the handler draws one outcome from an oracle `Nat → WOut`
(indexed by call order within the handler invocation): `ok` persists the
page and reports success, `fail` reports failure and leaves the page
unchanged, and `silent` reports success without persisting — the
worn/locked-tag failure mode the code calls a "silent reject".  The
internal retry behaviour of a single `_pcsc_write_page` call is modelled
separately at the transmit level below. -/

/-- A tag: pages of 4 bytes each. -/
def Tag : Type := List (List Nat)

instance : DecidableEq Tag := by unfold Tag; infer_instance

/-- Read one page (always succeeds; unwritten pages read as zero). -/
def pageOf (t : Tag) (p : Nat) : List Nat :=
  List.getD t p [0, 0, 0, 0]

/-- Outcome of one `_pcsc_write_page` call. -/
inductive WOut : Type
  | ok
  | silent
  | fail
deriving DecidableEq, Repr

/-- One `_pcsc_write_page` call at tag level: outcome index `k` of the
oracle decides it.  Returns (reported success, tag, next index). -/
def pageWrite (o : Nat → WOut) (k : Nat) (t : Tag) (p : Nat) (d : List Nat) :
    Bool × Tag × Nat :=
  match o k with
  | WOut.ok => (true, List.set t p d, k + 1)
  | WOut.silent => (true, t, k + 1)
  | WOut.fail => (false, t, k + 1)

/-- `NFCHandler.is_tag_locked`: bytes 2 and 3 of page 2 both `0xFF`. -/
def is_tag_locked (t : Tag) : Bool :=
  (pageOf t 2).length = 4 ∧ (pageOf t 2).getD 2 0 = 0xFF ∧ (pageOf t 2).getD 3 0 = 0xFF

/-- `NFCHandler._format_cc_if_needed`: keep page 3 if it already starts
with the NDEF magic `E1 10`, else write the canonical CC. -/
def _format_cc_if_needed (o : Nat → WOut) (k : Nat) (t : Tag) : Bool × Tag × Nat :=
  let cc := pageOf t 3
  if cc.length = 4 ∧ cc.getD 0 0 = 0xE1 ∧ cc.getD 1 0 = 0x10 then (true, t, k)
  else pageWrite o k t 3 [0xE1, 0x10, 0x12, 0x00]

/-- Pad a chunk of up to 4 bytes with zeros to exactly 4 bytes. -/
def pad4 (l : List Nat) : List Nat :=
  l ++ List.replicate (4 - l.length) 0

/-- The page loop of `write_ndef_message`: write 4-byte chunks of the
remaining payload to consecutive pages 5‥39; abort on a failed write.
(The `remaining[:4]` / `remaining[4:]` split of the source is rendered as
a four-element pattern so the recursion is structural; a final chunk of
fewer than 4 bytes is zero-padded and ends the loop, exactly as a
`remaining` shorter than 4 bytes does in the source.) -/
def writeDataPages (o : Nat → WOut) (k : Nat) (t : Tag) :
    List Nat → Nat → Bool × Tag × Nat
  | [], _ => (true, t, k)
  | a :: b :: c :: d :: rem, page =>
    if page > 39 then (true, t, k)
    else
      let w := pageWrite o k t page [a, b, c, d]
      if w.1 then writeDataPages o w.2.2 w.2.1 rem (page + 1)
      else (false, w.2.1, w.2.2)
  | rem, page =>
    if page > 39 then (true, t, k)
    else
      let w := pageWrite o k t page (pad4 rem)
      (w.1, w.2.1, w.2.2)

/-- `NFCHandler.write_ndef_message`: ensure the CC, write a zero-length
placeholder TLV header to page 4, write the remaining payload pages, and
finally write the true header back to page 4. -/
def write_ndef_message (o : Nat → WOut) (k : Nat) (t : Tag) (msg : List Nat) :
    Bool × Tag × Nat :=
  let r0 := _format_cc_if_needed o k t
  let t0 := r0.2.1
  let k0 := r0.2.2
  if msg.length < 4 then
    pageWrite o k0 t0 4 ((pad4 msg).take 4)
  else
    let p4 := msg.take 4
    let w1 := pageWrite o k0 t0 4 [0x03, 0x00, 0x00, 0x00]
    if ¬ w1.1 then (false, w1.2.1, w1.2.2)
    else
      let w2 := writeDataPages o w1.2.2 w1.2.1 (msg.drop 4) 5
      if ¬ w2.1 then (false, w2.2.1, w2.2.2)
      else pageWrite o w2.2.2 w2.2.1 4 p4

/-- The page-read loop of `read_ndef_message`: concatenate pages 4‥39,
stopping after the first page that contains the `0xFE` terminator. -/
def readPagesLoop (t : Tag) : List Nat → List Nat
  | [] => []
  | p :: ps =>
    let pg := pageOf t p
    if 0xFE ∈ pg then pg else pg ++ readPagesLoop t ps

/-- The raw bytes `read_ndef_message` accumulates from the tag. -/
def readTagData (t : Tag) : List Nat :=
  readPagesLoop t (List.range' 4 36)

/-- `NFCHandler.read_ndef_message`: read the data pages and scan for a
decodable NDEF TLV. -/
def read_ndef_message (t : Tag) : Option (List Nat) :=
  ndefTlvScan (readTagData t)

/-- `NFCHandler.lock_tag_permanently`: read page 2, set its last two
bytes to `0xFF`, write it back. -/
def lock_tag_permanently (o : Nat → WOut) (k : Nat) (t : Tag) : Bool × Tag × Nat :=
  let cur := pageOf t 2
  pageWrite o k t 2 [cur.getD 0 0, cur.getD 1 0, 0xFF, 0xFF]

/-- `NFCHandler.set_password_protection`: write PWD (page 43) and PACK
(page 44, a simple XOR derivation), set AUTH0 on page 41 to 4, clear the
PROT bit of the ACCESS byte on page 42. -/
def set_password_protection (o : Nat → WOut) (k : Nat) (t : Tag) (password : List Nat) :
    Bool × Tag × Nat :=
  let pwd := pad4 (password.take 4)
  let w1 := pageWrite o k t 0x2B pwd
  if ¬ w1.1 then (false, w1.2.1, w1.2.2)
  else
    let pack := [Nat.xor (pwd.getD 0 0) 0xAA, Nat.xor (pwd.getD 1 0) 0x55, 0x00, 0x00]
    let w2 := pageWrite o w1.2.2 w1.2.1 0x2C pack
    if ¬ w2.1 then (false, w2.2.1, w2.2.2)
    else
      let cfg0 := pageOf w2.2.1 0x29
      let w3 := pageWrite o w2.2.2 w2.2.1 0x29
        [cfg0.getD 0 0, cfg0.getD 1 0, cfg0.getD 2 0, 0x04]
      if ¬ w3.1 then (false, w3.2.1, w3.2.2)
      else
        let cfg1 := pageOf w3.2.1 0x2A
        pageWrite o w3.2.2 w3.2.1 0x2A
          [(cfg1.getD 0 0) % 128, cfg1.getD 1 0, cfg1.getD 2 0, cfg1.getD 3 0]

/-- ASCII whitespace recognized by Python `str.strip`. -/
def isWsByte (b : Nat) : Bool :=
  b = 32 ∨ b = 9 ∨ b = 10 ∨ b = 13 ∨ b = 11 ∨ b = 12

/-- Python `str.strip()` on the byte representation. -/
def stripWs (l : List Nat) : List Nat :=
  ((l.dropWhile isWsByte).reverse.dropWhile isWsByte).reverse

/-- `NFCHandler._is_valid_url`: after stripping, starts with `http://`
or `https://`. -/
def _is_valid_url (l : List Nat) : Bool :=
  (strBytes "http://").isPrefixOf (stripWs l) || (strBytes "https://").isPrefixOf (stripWs l)

/-- `NFCHandler._has_ndef_content`: the decoded content, if any, must be
a truthy valid URL. -/
def _has_ndef_content (t : Tag) : Bool × Option (List Nat) :=
  match read_ndef_message t with
  | some u => if u ≠ [] ∧ _is_valid_url u then (true, some u) else (false, none)
  | none => (false, none)

/-!
## Mode state machine

The mutable fields of `NFCHandler` that the card-event handlers read and
write, and the callbacks they invoke.  Callback invocations are recorded
as an event list (the GUI collaborator that registers the callbacks is
out of scope; the source guards each invocation with
`if self.nfc_handler.<cb>:`, i.e. events model the calls made when the
callbacks are registered).  Timestamps (`time.time()`, the 3-second read
cooldown) are modelled as rationals. -/

/-- One callback invocation. -/
inductive Ev : Type
  | evRead (url : List Nat)
  | evWrite (msg : String)
  | evUpdate (oldUrl : Option (List Nat)) (newUrl : Option (List Nat)) (success : Bool)
  | evUpdateScan (original : List Nat) (suggested : List Nat)
  | evLockedTag (url : List Nat)
  | evLog (msg : String) (level : String)
deriving DecidableEq, Repr

/-- The handler fields relevant to the card-event handlers
(`url_to_write`, protection flags, batch counters, debounce timestamp,
update-workflow cursor, and the settings fields the handlers consult). -/
structure HState : Type where
  url_to_write : Option (List Nat)
  lock_tags : Bool
  use_password : Bool
  tag_password : List Nat
  allow_overwrite : Bool
  batch_count : Nat
  batch_total : Nat
  cards_processed : Nat
  last_read_time : ℚ
  read_cooldown : ℚ
  update_step : String
  pending_rewrite_url : Option (List Nat)
  pending_original_url : Option (List Nat)
  has_settings : Bool
  verify_after_write : Bool
deriving DecidableEq

/-- `NFCObserver.handle_read_mode`: debounce then decode; a successful
truthy decode updates the timestamp and fires the read callback. -/
def handle_read_mode (st : HState) (t : Tag) (now : ℚ) : HState × List Ev :=
  if now - st.last_read_time < st.read_cooldown then (st, [])
  else
    match read_ndef_message t with
    | some u =>
      if u ≠ [] then ({ st with last_read_time := now }, [Ev.evRead u])
      else (st, [Ev.evLog "Invalid URL" "warning"])
    | none => (st, [Ev.evLog "Invalid URL" "warning"])

/-- Message suffix and tag/oracle state after the protection step of
`handle_write_mode` (password XOR permanent lock). -/
def writeProtectStep (o : Nat → WOut) (st : HState) (t : Tag) (k : Nat) :
    String × Tag × Nat :=
  if st.use_password ∧ st.tag_password ≠ [] then
    let w := set_password_protection o k t st.tag_password
    (if w.1 then " & password protected" else " (password protection failed)",
      w.2.1, w.2.2)
  else if st.lock_tags then
    let w := lock_tag_permanently o k t
    (if w.1 then " & locked" else " (lock failed)", w.2.1, w.2.2)
  else ("", t, k)

/-- `NFCObserver.handle_write_mode`.  Returns the updated handler state,
the tag, and the callback invocations in order. -/
def handle_write_mode (o : Nat → WOut) (st : HState) (t : Tag) :
    HState × Tag × List Ev :=
  match st.url_to_write with
  | none => (st, t, [])
  | some u =>
    if u = [] then (st, t, [])
    else if is_tag_locked t then
      let hc := _has_ndef_content t
      if hc.1 ∧ hc.2.getD [] ≠ [] then (st, t, [Ev.evLockedTag (hc.2.getD [])])
      else (st, t, [Ev.evWrite "Locked tag detected"])
    else if (_has_ndef_content t).1 ∧ ¬ st.allow_overwrite then
      (st, t, [Ev.evWrite "Write blocked: tag has existing data"])
    else
      match create_ndef_record u with
      | none => (st, t, [Ev.evLog "Write error" "error"])
      | some msg =>
        let w := write_ndef_message o 0 t msg
        let t1 := w.2.1
        let k1 := w.2.2
        if ¬ w.1 then (st, t1, [Ev.evLog "Write failed" "error"])
        else
          if read_ndef_message t1 ≠ some u then
            (st, t1, [Ev.evWrite "Locked tag - writing prevented"])
          else
            let prot := writeProtectStep o st t1 k1
            let t2 := prot.2.1
            let verifyMsg :=
              if st.has_settings ∧ st.verify_after_write then
                if read_ndef_message t2 = some u then " & verified"
                else " (verification failed)"
              else ""
            let st1 := { st with cards_processed := st.cards_processed + 1 }
            let st2 :=
              if st1.batch_total > 1 then { st1 with batch_count := st1.batch_count + 1 }
              else st1
            let batchLog :=
              if st1.batch_total > 1 ∧ st2.batch_count < st2.batch_total then
                [Ev.evLog ("Present next tag (" ++ toString (st2.batch_count + 1) ++ "/" ++
                  toString st2.batch_total ++ ")") "info"]
              else []
            (st2, t2, Ev.evWrite ("Written" ++ prot.1 ++ verifyMsg) :: batchLog)

/-- `NFCObserver.handle_update_mode`.  `rw` abstracts
`settings.rewrite_url` applied to the tag URL (modelled at string level
in `Settings.rewrite_url` below). -/
def handle_update_mode (o : Nat → WOut) (rw : List Nat → List Nat × Bool)
    (st : HState) (t : Tag) : HState × Tag × List Ev :=
  if st.update_step = "scan_old" then
    match read_ndef_message t with
    | none => (st, t, [Ev.evLog "Empty tag - scan a tag with URL" "warning"])
    | some eu =>
      if eu = [] then (st, t, [Ev.evLog "Empty tag - scan a tag with URL" "warning"])
      else
        let sug := if st.has_settings then (if (rw eu).2 then (rw eu).1 else []) else []
        (st, t, [Ev.evUpdateScan eu sug])
  else if st.update_step = "write_new" then
    match st.pending_rewrite_url with
    | none =>
      ({ st with update_step := "scan_old" }, t,
        [Ev.evLog "No pending URL - scan old tag first" "error"])
    | some pr =>
      if pr = [] then
        ({ st with update_step := "scan_old" }, t,
          [Ev.evLog "No pending URL - scan old tag first" "error"])
      else if is_tag_locked t then
        (st, t, [Ev.evLog "Locked tag - writing prevented" "error"])
      else if (_has_ndef_content t).1 then
        (st, t, [Ev.evLog "Tag has data - use blank tag" "warning"])
      else
        match create_ndef_record pr with
        | none =>
          (st, t, [Ev.evLog "Write error" "error",
            Ev.evUpdate st.pending_original_url (some pr) false])
        | some msg =>
          let w := write_ndef_message o 0 t msg
          let t1 := w.2.1
          let k1 := w.2.2
          if ¬ w.1 then
            (st, t1, [Ev.evLog "Write failed" "error",
              Ev.evUpdate st.pending_original_url (some pr) false])
          else
            if read_ndef_message t1 ≠ some pr then
              (st, t1, [Ev.evLog "Locked tag - writing prevented" "error",
                Ev.evUpdate st.pending_original_url (some pr) false])
            else
              let locked := lock_tag_permanently o k1 t1
              ({ st with
                  update_step := "scan_old",
                  pending_rewrite_url := none,
                  pending_original_url := none,
                  cards_processed := st.cards_processed + 1 },
                locked.2.1,
                [Ev.evUpdate st.pending_original_url (some pr) true])
  else (st, t, [])

/-!
## Transmit-level model of `_pcsc_write_page`

One oracle value per `connection.transmit` call: either a status word
pair or a raised exception, classified by whether its text matches the
transport signature the code tests for (`"T=1" in err_txt or "transport"
in err_txt.lower()`).  `connectOk` tells whether the
`connection.connect(CardConnection.T1_protocol)` reconnect succeeds or
raises.  The trace records transmits, the 50 ms sleeps, the disconnect
and the T=1 reconnect, in order. -/

/-- Outcome of one `connection.transmit` call. -/
inductive TxOut : Type
  | resp (sw1 sw2 : Nat)
  | exn (transportLike : Bool)
deriving DecidableEq, Repr

/-- Observable actions of `_pcsc_write_page`. -/
inductive PEv : Type
  | txmit
  | sleep50
  | discon
  | reconT1
deriving DecidableEq, Repr

/-- The retry loop of `_pcsc_write_page`: `n` = index of the next
transmit, `attempts` = NACK retries used so far, `didReconnect` = the
one-shot reconnect guard. -/
def pcscWriteLoop (tx : Nat → TxOut) (connectOk : Bool) (retries : Nat) :
    Nat → Nat → Bool → Bool × List PEv
  | n, attempts, didReconnect =>
    match tx n with
    | TxOut.resp sw1 sw2 =>
      if sw1 = 0x90 ∧ sw2 = 0x00 then (true, [PEv.txmit])
      else if sw1 = 0x63 ∧ attempts < retries then
        let r := pcscWriteLoop tx connectOk retries (n + 1) (attempts + 1) didReconnect
        (r.1, PEv.txmit :: PEv.sleep50 :: r.2)
      else (false, [PEv.txmit])
    | TxOut.exn transportLike =>
      if ¬ didReconnect ∧ transportLike then
        if connectOk then
          match tx (n + 1) with
          | TxOut.resp s1 s2 =>
            (s1 = 0x90 ∧ s2 = 0x00,
              [PEv.txmit, PEv.discon, PEv.reconT1, PEv.sleep50, PEv.txmit])
          | TxOut.exn _ =>
            (false, [PEv.txmit, PEv.discon, PEv.reconT1, PEv.sleep50, PEv.txmit])
        else (false, [PEv.txmit, PEv.discon])
      else (false, [PEv.txmit])
termination_by _ attempts _ => retries - attempts

/-- `NFCHandler._pcsc_write_page` at transmit level (default
`retries = 4`). -/
def _pcsc_write_page (tx : Nat → TxOut) (connectOk : Bool) (retries : Nat := 4) :
    Bool × List PEv :=
  pcscWriteLoop tx connectOk retries 0 0 false

/-!
## `Settings.rewrite_url`

The regex engine (`re.match`) is the Python standard library; it is
abstracted as an optional matcher returning the first capture group
(`none` for the whole matcher models a pattern that fails to compile, in
which case `re.match` raises `re.error`, caught by the source).  The
repository's default pattern
`^https?://10\.0\.0\.\d+(?::\d+)?/+item/(.+)$` is compiled by hand into
`defaultPatternMatch` below, following `re.match` semantics (anchored at
the start; `$` also matches just before a trailing newline; `\d`
modelled as ASCII digits). -/

/-- Python `str.rstrip('/')`. -/
def rstripSlash (s : String) : String :=
  String.mk (s.data.reverse.dropWhile (fun c => c = '/')).reverse

/-- `Settings.rewrite_url`: guard empty pattern/target, then match; on a
match append the capture group to the target base normalized to end with
exactly one slash. -/
def rewrite_url (pattern target : String)
    (matcher : Option (String → Option String)) (url : String) : String × Bool :=
  if pattern = "" ∨ target = "" then (url, false)
  else
    match matcher with
    | none => (url, false)
    | some m =>
      match m url with
      | some g => (rstripSlash target ++ "/" ++ g, true)
      | none => (url, false)

/-- Match a literal, returning the rest. -/
def stripLit : List Char → List Char → Option (List Char)
  | [], cs => some cs
  | _ :: _, [] => none
  | l :: ls, c :: cs => if c = l then stripLit ls cs else none

/-- `\d+` (greedy, ASCII digits): at least one digit. -/
def dropDigits1 : List Char → Option (List Char)
  | [] => none
  | c :: cs => if c.isDigit then some (cs.dropWhile Char.isDigit) else none

/-- `/+` (greedy): at least one slash. -/
def dropSlashes1 : List Char → Option (List Char)
  | [] => none
  | c :: cs => if c = '/' then some (cs.dropWhile (fun x => x = '/')) else none

/-- `(.+)$`: the capture is the whole tail (no newline, nonempty), or
the tail minus a single trailing newline. -/
def dollarTail (t : List Char) : Option (List Char) :=
  if t ≠ [] ∧ '\n' ∉ t then some t
  else
    if t.getLastD ' ' = '\n' ∧ t.dropLast ≠ [] ∧ '\n' ∉ t.dropLast then some t.dropLast
    else none

/-- The hand-compiled default pattern, on character lists. -/
def matchDefaultAux (cs : List Char) : Option (List Char) :=
  (stripLit "http".data cs).bind fun c1 =>
    let c2 := match c1 with
      | 's' :: r => r
      | _ => c1
    (stripLit "://10.0.0.".data c2).bind fun c3 =>
      (dropDigits1 c3).bind fun c4 =>
        let c5 : Option (List Char) :=
          match c4 with
          | ':' :: r => dropDigits1 r
          | _ => some c4
        c5.bind fun c6 =>
          (dropSlashes1 c6).bind fun c7 =>
            (stripLit "item/".data c7).bind fun c8 =>
              dollarTail c8

/-- `re.match(Settings.DEFAULT_PATTERN, url)` with `.group(1)`. -/
def defaultPatternMatch (url : String) : Option String :=
  (matchDefaultAux url.data).map String.mk

/-- `Settings.DEFAULT_PATTERN`. -/
def DEFAULT_PATTERN : String := "^https?://10\\.0\\.0\\.\\d+(?::\\d+)?/+item/(.+)$"

/-- `Settings.DEFAULT_TARGET`. -/
def DEFAULT_TARGET : String := "https://your-domain.com/item/"

/-- `rewrite_url` under the default configuration. -/
def defaultRewrite (url : String) : String × Bool :=
  rewrite_url DEFAULT_PATTERN DEFAULT_TARGET (some defaultPatternMatch) url

/-!
## Derived predicates and concrete inputs
-/

/-- A "confirmed write success" in write mode, as §4.4 of the spec uses
the phrase: the card reaches the write step, all low-level page writes
report success, and the immediate read-back verification matches the
configured URL. -/
def confirmedWriteSuccess (o : Nat → WOut) (st : HState) (t : Tag) : Bool :=
  match st.url_to_write with
  | none => false
  | some u =>
    if u = [] then false
    else if is_tag_locked t then false
    else if (_has_ndef_content t).1 ∧ ¬ st.allow_overwrite then false
    else
      match create_ndef_record u with
      | none => false
      | some msg =>
        let w := write_ndef_message o 0 t msg
        if ¬ w.1 then false
        else decide (read_ndef_message w.2.1 = some u)

/-- A factory-blank NTAG213: 45 zero pages with the capability container
on page 3. -/
def blankTag : Tag :=
  (List.replicate 45 ([0, 0, 0, 0])).set 3 [0xE1, 0x10, 0x12, 0x00]

/-- An oracle under which every page write succeeds. -/
def wOk : Nat → WOut := fun _ => WOut.ok

/-- An oracle under which every page write fails. -/
def wFail : Nat → WOut := fun _ => WOut.fail

/-- A short concrete URL. -/
def urlA : List Nat := strBytes "http://a"

/-- A blank tag after a fully successful write of `urlA`. -/
def tagA : Tag :=
  (write_ndef_message wOk 0 blankTag ((create_ndef_record urlA).getD [])).2.1

/-- A TLV-wrapped NDEF message holding a single text record
(language `en`, text `hi`) — decodable NDEF content that is not a URL. -/
def textMsg : List Nat :=
  [0x03, 0x09, 0xD1, 0x01, 0x05, 0x54, 0x02] ++ strBytes "enhi" ++ [0xFE, 0x00]

/-- A blank tag carrying `textMsg`. -/
def textTag : Tag :=
  (write_ndef_message wOk 0 blankTag textMsg).2.1

/-- A locked blank tag (static lock bytes set on page 2). -/
def lockedBlankTag : Tag := blankTag.set 2 [0, 0, 0xFF, 0xFF]

/-- A locked tag carrying `urlA`. -/
def lockedTagA : Tag := tagA.set 2 [0, 0, 0xFF, 0xFF]

/-- A baseline handler state configured for write mode on `urlA`. -/
def stW : HState where
  url_to_write := some urlA
  lock_tags := false
  use_password := false
  tag_password := []
  allow_overwrite := false
  batch_count := 0
  batch_total := 0
  cards_processed := 0
  last_read_time := 0
  read_cooldown := 3
  update_step := "scan_old"
  pending_rewrite_url := none
  pending_original_url := none
  has_settings := true
  verify_after_write := true

/-!
## Theorems

### C1: NDEF encode/decode round trip
-/

/-- The selected abbreviation prefix plus the kept tail reassemble the
URI. -/
theorem uriPrefixSelect_append (u : List Nat) :
    uriPrefixTable.getD (uriPrefixSelect u).1 [] ++ (uriPrefixSelect u).2 = u := by
  unfold uriPrefixSelect
  cases hf : ((List.range 36).drop 1).find?
      (fun i => (uriPrefixTable.getD i []).isPrefixOf u) with
  | none => simp [uriPrefixTable, strBytes]
  | some i =>
    have hp := List.find?_some hf
    have h2 : uriPrefixTable.getD i [] <+: u := List.isPrefixOf_iff_prefix.mp hp
    simpa [List.getD_eq_getElem?_getD] using List.prefix_iff_eq_append.mp h2

/-- The selected abbreviation code is a valid identifier code. -/
theorem uriPrefixSelect_code_lt (u : List Nat) : (uriPrefixSelect u).1 < 36 := by
  unfold uriPrefixSelect
  cases hf : ((List.range 36).drop 1).find?
      (fun i => (uriPrefixTable.getD i []).isPrefixOf u) with
  | none => simp
  | some i =>
    have hm : i ∈ List.range 36 := List.mem_of_mem_drop (List.mem_of_find?_eq_some hf)
    simpa using List.mem_range.mp hm

/-- Decoding an encoded single-URI message in short-record form yields
exactly that URI record. -/
theorem decode_encode_uri (u : List Nat) (h : (uriPayload u).length < 256) :
    decodeNdefMessage (encodeNdefMessageUri u) = some [NdefRec.uriR u] := by
  unfold encodeNdefMessageUri
  rw [if_pos h]
  have hcode := uriPrefixSelect_code_lt u
  have happ := uriPrefixSelect_append u
  unfold decodeNdefMessage
  unfold uriPayload
  simp only [List.length_cons]
  unfold decodeRecordsAux
  simp only [List.getD_eq_getElem?_getD] at happ
  simp [parseRecord, parseRecordBody, decodeUriPayload, hcode, happ, List.take_length]

/-- A hit at offset 0: scanning `03, len, message ++ tail` returns
whatever the record loop extracts from the decoded message. -/
theorem ndefTlvScan_cons_hit (L : Nat) (m tail u : List Nat) (rs : List NdefRec)
    (hL : m.length = L) (hpos : 0 < L)
    (hdec : decodeNdefMessage m = some rs) (hfind : findUriOrText rs = some u) :
    ndefTlvScan (3 :: L :: (m ++ tail)) = some u := by
  subst hL
  unfold ndefTlvScan
  simp only [List.length_cons]
  rw [ndefTlvScanAux]
  have hslice : List.take m.length (m ++ tail) = m := List.take_left m tail
  have hle : 2 + m.length ≤ m.length + tail.length + 1 + 1 := by omega
  simp [hpos, hslice, hdec, hfind, hle]

/-- **C1.** For every valid URI (nonempty, and short enough that
`create_ndef_record` succeeds), TLV-scanning the encoded byte buffer
with the scan of `read_ndef_message` returns exactly the URI. -/
theorem c1_roundtrip (u : List Nat) (hne : u ≠ []) (b : List Nat)
    (henc : create_ndef_record u = some b) :
    ndefTlvScan b = some u := by
  unfold create_ndef_record at henc
  by_cases hlen : (encodeNdefMessageUri u).length ≤ 255
  · rw [if_pos hlen] at henc
    have hb := (Option.some.inj henc).symm
    have hp : (uriPayload u).length < 256 := by
      by_contra hp
      unfold encodeNdefMessageUri at hlen
      rw [if_neg hp] at hlen
      simp only [List.length_cons] at hlen
      omega
    have hshape : encodeNdefMessageUri u =
        0xD1 :: 0x01 :: (uriPayload u).length :: 0x55 :: uriPayload u := by
      unfold encodeNdefMessageUri
      rw [if_pos hp]
    have hpos : 0 < (encodeNdefMessageUri u).length := by
      rw [hshape]; simp
    have hb2 : b = 3 :: (encodeNdefMessageUri u).length ::
        (encodeNdefMessageUri u ++ ([0xFE] ++ List.replicate
          ((4 - (3 :: (encodeNdefMessageUri u).length ::
            (encodeNdefMessageUri u ++ [0xFE])).length % 4) % 4) 0)) := by
      rw [hb]
      simp [List.append_assoc]
    rw [hb2]
    exact ndefTlvScan_cons_hit (encodeNdefMessageUri u).length
      (encodeNdefMessageUri u) _ u [NdefRec.uriR u] rfl hpos
      (decode_encode_uri u hp) (by simp [findUriOrText, hne])
  · rw [if_neg hlen] at henc
    exact absurd henc (by simp)

/-- Witness for C1: the round trip at the concrete URL `http://a`. -/
theorem c1_roundtrip_witness :
    ndefTlvScan ((create_ndef_record urlA).getD []) = some urlA := by
  exact c1_roundtrip urlA (by decide) ((create_ndef_record urlA).getD []) (by rfl)

/-!
### Scan and page-write infrastructure for C2 and C5/C6

`ndefTlvScanAux_none` is the heart of the C2 "no corrupted partial URL"
argument: a buffer in which every `0x03` byte is followed by a zero
length byte, or whose candidate message window would begin with a byte
that cannot start a strict NDEF message (MB clear, or CF set), never
yields a URL. -/

/-- `getD` inside the length is `getElem`. -/
theorem getD_eq_getElem_of_lt (l : List Nat) (i : Nat) (h : i < l.length) (d : Nat) :
    l.getD i d = l[i] := by
  simp [List.getD_eq_getElem?_getD, List.getElem?_eq_getElem h]

/-- `getD` of a replicated list. -/
theorem getD_replicate_of_lt (n i a d : Nat) (h : i < n) :
    (List.replicate n a).getD i d = a := by
  simp [List.getD_eq_getElem?_getD, List.getElem?_replicate, h]

/-- `getD` beyond the length is the default. -/
theorem getD_eq_default_of_le (l : List Nat) (i : Nat) (h : l.length ≤ i) (d : Nat) :
    l.getD i d = d := by
  simp [List.getD_eq_getElem?_getD, List.getElem?_eq_none h]

/-- A chunked record (CF flag set) is a strict-mode decode error. -/
theorem parseRecordBody_cf (h : Nat) (t : List Nat) (hcf : h / 32 % 2 = 1) :
    parseRecordBody h t = none := by
  unfold parseRecordBody
  rw [if_pos hcf]

/-- A byte stream whose first byte lacks MB, or carries CF, never
decodes as an NDEF message. -/
theorem decodeNdefMessage_head_bad (h : Nat) (tl : List Nat)
    (hh : h < 128 ∨ h / 32 % 2 = 1) :
    decodeNdefMessage (h :: tl) = none := by
  unfold decodeNdefMessage
  simp only [List.length_cons]
  rw [decodeRecordsAux]
  rcases hh with hh | hh
  · have hmb : decide (h / 128 % 2 = 1) = false := by
      have h0 : h / 128 = 0 := Nat.div_eq_of_lt hh
      simp [h0]
    cases hb : parseRecordBody h tl with
    | none => simp [parseRecord, hb]
    | some rr => simp [parseRecord, hb, hmb]
  · simp [parseRecord, parseRecordBody_cf h tl hh]

/-- The TLV scan returns nothing on a buffer whose every `0x03` byte is
followed by a zero length byte or a window head that cannot begin a
message. -/
theorem ndefTlvScanAux_none (B : List Nat)
    (hC : ∀ i, B.getD i 0 = 3 →
      B.getD (i + 1) 0 = 0 ∨ B.getD (i + 2) 0 < 128 ∨ (B.getD (i + 2) 0) / 32 % 2 = 1) :
    ∀ fuel i, ndefTlvScanAux B fuel i = none := by
  intro fuel
  induction fuel with
  | zero => intro i; rfl
  | succ n ih =>
    intro i
    rw [ndefTlvScanAux]
    by_cases hg : i + 2 < B.length
    · rw [if_pos hg]
      by_cases h3 : B.getD i 0 = 3
      · rw [if_pos h3]
        by_cases hL : 0 < B.getD (i + 1) 0 ∧ i + 2 + B.getD (i + 1) 0 ≤ B.length
        · rw [if_pos hL]
          have hdrop : B.drop (i + 2) = B[i + 2] :: B.drop (i + 3) :=
            List.drop_eq_getElem_cons hg
          rcases hC i h3 with h0 | hbad
          · exact absurd hL.1 (by omega)
          · cases hLv : B.getD (i + 1) 0 with
            | zero => exact absurd hL.1 (by omega)
            | succ L =>
              have hwin : (B.drop (i + 2)).take (L + 1) =
                  B[i + 2] :: (B.drop (i + 3)).take L := by
                rw [hdrop, List.take_succ_cons]
              rw [hwin]
              have hbad2 : B[i + 2] < 128 ∨ B[i + 2] / 32 % 2 = 1 := by
                rwa [getD_eq_getElem_of_lt B (i + 2) hg 0] at hbad
              rw [decodeNdefMessage_head_bad _ _ hbad2]
              exact ih (i + 1)
        · rw [if_neg hL]; exact ih (i + 1)
      · rw [if_neg h3]; exact ih (i + 1)
    · rw [if_neg hg]

/-- Scanning an all-zero buffer yields nothing. -/
theorem ndefTlvScan_replicate_zero (n : Nat) :
    ndefTlvScan (List.replicate n 0) = none := by
  apply ndefTlvScanAux_none
  intro i h3
  by_cases h : i < n
  · rw [getD_replicate_of_lt n i 0 0 h] at h3
    omega
  · rw [getD_eq_default_of_le _ _ (by simpa using h) 0] at h3
    omega

/-- Reading a page after a page write. -/
theorem pageOf_set (t : Tag) (p : Nat) (d : List Nat) (q : Nat) :
    pageOf (List.set t p d) q = if q = p ∧ p < t.length then d else pageOf t q := by
  unfold pageOf
  by_cases h : q = p ∧ p < t.length
  · rw [if_pos h, h.1]
    simp [List.getD_eq_getElem?_getD, List.getElem?_set_self, h.2]
  · rw [if_neg h]
    by_cases hq : q = p
    · have hp : ¬ p < t.length := fun hlt => h ⟨hq, hlt⟩
      rw [List.set_eq_of_length_le (by omega : t.length ≤ p)]
    · simp [List.getD_eq_getElem?_getD, List.getElem?_set_ne (fun hh => hq hh.symm)]

/-- The page loop under an all-successful oracle: every chunk lands on
its page, the oracle cursor advances one step per chunk, and no other
page changes. -/
theorem writeDataPages_allok (o : Nat → WOut) :
    ∀ (rem : List Nat) (page k : Nat) (t : Tag), 4 ∣ rem.length →
      page + rem.length / 4 ≤ 40 → t.length = 45 →
      (∀ n, n < rem.length / 4 → o (k + n) = WOut.ok) →
      (writeDataPages o k t rem page).1 = true ∧
      (writeDataPages o k t rem page).2.2 = k + rem.length / 4 ∧
      (writeDataPages o k t rem page).2.1.length = 45 ∧
      (∀ q, pageOf (writeDataPages o k t rem page).2.1 q =
        if page ≤ q ∧ q < page + rem.length / 4
        then (rem.drop (4 * (q - page))).take 4
        else pageOf t q)
  | [], page, k, t, hdvd, hpg, hlen, hoks => by
    refine ⟨rfl, by simp [writeDataPages], by simp [writeDataPages, hlen], ?_⟩
    intro q
    simp only [writeDataPages, List.length_nil]
    rw [if_neg (by omega : ¬ (page ≤ q ∧ q < page + 0 / 4))]
  | [a], page, k, t, hdvd, hpg, hlen, hoks => by
    simp only [List.length_cons, List.length_nil] at hdvd
    omega
  | [a, b], page, k, t, hdvd, hpg, hlen, hoks => by
    simp only [List.length_cons, List.length_nil] at hdvd
    omega
  | [a, b, c], page, k, t, hdvd, hpg, hlen, hoks => by
    simp only [List.length_cons, List.length_nil] at hdvd
    omega
  | a :: b :: c :: d :: rest, page, k, t, hdvd, hpg, hlen, hoks => by
    have hlen4 : (a :: b :: c :: d :: rest).length = rest.length + 4 := by
      simp
    have hd4 : 4 ∣ rest.length := by rw [hlen4] at hdvd; omega
    have hq4 : (a :: b :: c :: d :: rest).length / 4 = rest.length / 4 + 1 := by
      rw [hlen4]; omega
    have hpg39 : ¬ page > 39 := by omega
    have hok0 : o k = WOut.ok := by
      have := hoks 0 (by rw [hq4]; omega)
      simpa using this
    have hstep := writeDataPages_allok o rest (page + 1) (k + 1)
      (t.set page [a, b, c, d]) hd4 (by omega)
      (by rw [List.length_set]; exact hlen)
      (fun n hn => by
        have := hoks (n + 1) (by rw [hq4]; omega)
        simpa [Nat.add_comm, Nat.add_assoc, Nat.add_left_comm] using this)
    have hred : writeDataPages o k t (a :: b :: c :: d :: rest) page =
        writeDataPages o (k + 1) (t.set page [a, b, c, d]) rest (page + 1) := by
      rw [writeDataPages]
      simp [hpg39, pageWrite, hok0]
    rw [hred, hq4]
    refine ⟨hstep.1, by rw [hstep.2.1]; omega, hstep.2.2.1, ?_⟩
    intro q
    rw [hstep.2.2.2 q, pageOf_set]
    by_cases h1 : page + 1 ≤ q ∧ q < page + 1 + rest.length / 4
    · rw [if_pos h1, if_pos (by omega)]
      have hqp : 4 * (q - page) = 4 * (q - (page + 1)) + 4 := by omega
      rw [hqp]
      rfl
    · rw [if_neg h1]
      by_cases h2 : q = page ∧ page < t.length
      · rw [if_pos h2, if_pos (by omega)]
        have : 4 * (q - page) = 0 := by omega
        rw [this]
        rfl
      · rw [if_neg h2, if_neg (by omega)]

/-- The page loop when the oracle reports the first failure at relative
call index `j` (counting from `k`), with `j` inside the loop: the loop
reports failure, the first `j` chunks landed, nothing else changed. -/
theorem writeDataPages_firstfail (o : Nat → WOut) :
    ∀ (rem : List Nat) (page k j : Nat) (t : Tag), 4 ∣ rem.length →
      page + rem.length / 4 ≤ 40 → t.length = 45 →
      (∀ n, n < j → o (k + n) = WOut.ok) → j < rem.length / 4 → o (k + j) = WOut.fail →
      (writeDataPages o k t rem page).1 = false ∧
      (writeDataPages o k t rem page).2.1.length = 45 ∧
      (∀ q, pageOf (writeDataPages o k t rem page).2.1 q =
        if page ≤ q ∧ q < page + j
        then (rem.drop (4 * (q - page))).take 4
        else pageOf t q)
  | [], page, k, j, t, hdvd, hpg, hlen, hpre, hj, hf => by
    simp at hj
  | [a], page, k, j, t, hdvd, hpg, hlen, hpre, hj, hf => by
    simp only [List.length_cons, List.length_nil] at hdvd
    omega
  | [a, b], page, k, j, t, hdvd, hpg, hlen, hpre, hj, hf => by
    simp only [List.length_cons, List.length_nil] at hdvd
    omega
  | [a, b, c], page, k, j, t, hdvd, hpg, hlen, hpre, hj, hf => by
    simp only [List.length_cons, List.length_nil] at hdvd
    omega
  | a :: b :: c :: d :: rest, page, k, j, t, hdvd, hpg, hlen, hpre, hj, hf => by
    have hlen4 : (a :: b :: c :: d :: rest).length = rest.length + 4 := by
      simp
    have hd4 : 4 ∣ rest.length := by rw [hlen4] at hdvd; omega
    have hq4 : (a :: b :: c :: d :: rest).length / 4 = rest.length / 4 + 1 := by
      rw [hlen4]; omega
    have hpg39 : ¬ page > 39 := by omega
    cases j with
    | zero =>
      have hf0 : o k = WOut.fail := by simpa using hf
      have hred : writeDataPages o k t (a :: b :: c :: d :: rest) page =
          (false, t, k + 1) := by
        rw [writeDataPages]
        simp [hpg39, pageWrite, hf0]
      rw [hred]
      refine ⟨rfl, hlen, ?_⟩
      intro q
      rw [if_neg (by omega)]
    | succ j =>
      have hok0 : o k = WOut.ok := by simpa using hpre 0 (by omega)
      have hred : writeDataPages o k t (a :: b :: c :: d :: rest) page =
          writeDataPages o (k + 1) (t.set page [a, b, c, d]) rest (page + 1) := by
        rw [writeDataPages]
        simp [hpg39, pageWrite, hok0]
      have hstep := writeDataPages_firstfail o rest (page + 1) (k + 1) j
        (t.set page [a, b, c, d]) hd4 (by omega)
        (by rw [List.length_set]; exact hlen)
        (fun n hn => by
          have := hpre (n + 1) (by omega)
          simpa [Nat.add_comm, Nat.add_assoc, Nat.add_left_comm] using this)
        (by rw [hq4] at hj; omega)
        (by
          have : k + 1 + j = k + (j + 1) := by omega
          rw [this]; exact hf)
      rw [hred]
      refine ⟨hstep.1, hstep.2.1, ?_⟩
      intro q
      rw [hstep.2.2 q, pageOf_set]
      by_cases h1 : page + 1 ≤ q ∧ q < page + 1 + j
      · rw [if_pos h1, if_pos (by omega)]
        have hqp : 4 * (q - page) = 4 * (q - (page + 1)) + 4 := by omega
        rw [hqp]
        rfl
      · rw [if_neg h1]
        by_cases h2 : q = page ∧ page < t.length
        · rw [if_pos h2, if_pos (by omega)]
          have : 4 * (q - page) = 0 := by omega
          rw [this]
          rfl
        · rw [if_neg h2, if_neg (by omega)]

/-- Under an all-successful oracle, the CC-formatting step preserves
every page other than page 3 and the tag size. -/
theorem format_cc_pages (o : Nat → WOut) (hok : ∀ n, o n = WOut.ok) (k : Nat)
    (t : Tag) (hlen : t.length = 45) :
    (_format_cc_if_needed o k t).2.1.length = 45 ∧
    ∀ q, q ≠ 3 → pageOf (_format_cc_if_needed o k t).2.1 q = pageOf t q := by
  unfold _format_cc_if_needed
  by_cases hcc : (pageOf t 3).length = 4 ∧ (pageOf t 3).getD 0 0 = 0xE1 ∧
      (pageOf t 3).getD 1 0 = 0x10
  · rw [if_pos hcc]
    exact ⟨hlen, fun q _ => rfl⟩
  · rw [if_neg hcc]
    simp only [pageWrite, hok k]
    refine ⟨by rw [List.length_set]; exact hlen, ?_⟩
    intro q hq
    rw [pageOf_set]
    rw [if_neg (by simp [hq])]

/-- `write_ndef_message` under an all-successful oracle: it reports
success and the data pages 4‥ spell out the message; pages other than
pages 3‥(last written) keep their previous content. -/
theorem write_ndef_message_allok (o : Nat → WOut) (hok : ∀ n, o n = WOut.ok)
    (t : Tag) (msg : List Nat) (h4 : 4 ≤ msg.length) (hdvd : 4 ∣ msg.length)
    (hfit : msg.length ≤ 144) (hlen : t.length = 45) :
    (write_ndef_message o 0 t msg).1 = true ∧
    (write_ndef_message o 0 t msg).2.1.length = 45 ∧
    ∀ q, q ≠ 3 → pageOf (write_ndef_message o 0 t msg).2.1 q =
      (if 4 ≤ q ∧ q < 4 + msg.length / 4 then (msg.drop (4 * (q - 4))).take 4
       else pageOf t q) := by
  have hcc := format_cc_pages o hok 0 t hlen
  have hnot4 : ¬ msg.length < 4 := by omega
  have hdroplen : (msg.drop 4).length = msg.length - 4 := by
    rw [List.length_drop]
  have hdvd4 : 4 ∣ (msg.drop 4).length := by rw [hdroplen]; omega
  have hq4 : msg.length / 4 = (msg.drop 4).length / 4 + 1 := by
    rw [hdroplen]; omega
  set t0 := (_format_cc_if_needed o 0 t).2.1 with ht0
  set k0 := (_format_cc_if_needed o 0 t).2.2 with hk0
  have ht1len : (t0.set 4 [0x03, 0x00, 0x00, 0x00]).length = 45 := by
    rw [List.length_set]; exact hcc.1
  have hdata := writeDataPages_allok o (msg.drop 4) 5 (k0 + 1)
    (t0.set 4 [0x03, 0x00, 0x00, 0x00]) hdvd4
    (by rw [hdroplen]; omega) ht1len (fun n _ => hok (k0 + 1 + n))
  have hred : write_ndef_message o 0 t msg =
      pageWrite o
        (writeDataPages o (k0 + 1) (t0.set 4 [0x03, 0x00, 0x00, 0x00]) (msg.drop 4) 5).2.2
        (writeDataPages o (k0 + 1) (t0.set 4 [0x03, 0x00, 0x00, 0x00]) (msg.drop 4) 5).2.1
        4 (msg.take 4) := by
    unfold write_ndef_message
    rw [if_neg hnot4]
    simp only [← ht0, ← hk0, pageWrite, hok k0, hdata.1]
    simp [hdata.1]
  rw [hred]
  simp only [pageWrite, hok]
  refine ⟨by trivial, by rw [List.length_set]; exact hdata.2.2.1, ?_⟩
  intro q hq3
  rw [pageOf_set]
  by_cases hq : q = 4
  · subst hq
    rw [if_pos (by simp [hdata.2.2.1])]
    rw [if_pos (by omega)]
    simp
  · rw [if_neg (by simp [hq])]
    rw [hdata.2.2.2 q]
    by_cases hin : 5 ≤ q ∧ q < 5 + (msg.drop 4).length / 4
    · rw [if_pos hin, if_pos (by omega)]
      rw [List.drop_drop]
      congr 2
      omega
    · rw [if_neg hin, if_neg (by omega)]
      rw [pageOf_set, if_neg (by simp [hq])]
      exact hcc.2 q hq3

/-- `write_ndef_message` on a CC-formatted tag when the oracle reports
its first failure at call index `j` (`j = 0` is the placeholder write,
`1 ≤ j ≤ msg.length / 4 - 1` a payload page, `j = msg.length / 4` the
final header rewrite): the call reports failure; with `j = 0` the tag is
untouched; otherwise page 4 holds the zero-length placeholder, pages
`5 ≤ q < 4 + j` hold their payload chunks, and every other page is
unchanged. -/
theorem write_ndef_message_firstfail (o : Nat → WOut) (t : Tag) (msg : List Nat)
    (hcc : (pageOf t 3).length = 4 ∧ (pageOf t 3).getD 0 0 = 0xE1 ∧
      (pageOf t 3).getD 1 0 = 0x10)
    (h4 : 4 ≤ msg.length) (hdvd : 4 ∣ msg.length) (hfit : msg.length ≤ 144)
    (hlen : t.length = 45) (j : Nat)
    (hpre : ∀ n, n < j → o n = WOut.ok) (hf : o j = WOut.fail)
    (hj : j ≤ msg.length / 4) :
    (write_ndef_message o 0 t msg).1 = false ∧
    (write_ndef_message o 0 t msg).2.1.length = 45 ∧
    (j = 0 → (write_ndef_message o 0 t msg).2.1 = t) ∧
    (1 ≤ j → ∀ q, pageOf (write_ndef_message o 0 t msg).2.1 q =
      if q = 4 then [0x03, 0x00, 0x00, 0x00]
      else if 5 ≤ q ∧ q < 4 + j then (msg.drop (4 * (q - 4))).take 4
      else pageOf t q) := by
  have hccr : _format_cc_if_needed o 0 t = (true, t, 0) := by
    unfold _format_cc_if_needed
    rw [if_pos hcc]
  have hnot4 : ¬ msg.length < 4 := by omega
  have hdroplen : (msg.drop 4).length = msg.length - 4 := List.length_drop 4 msg
  have hdvd4 : 4 ∣ (msg.drop 4).length := by rw [hdroplen]; omega
  have hq4 : msg.length / 4 = (msg.drop 4).length / 4 + 1 := by
    rw [hdroplen]; omega
  have ht1len : (t.set 4 [0x03, 0x00, 0x00, 0x00]).length = 45 := by
    rw [List.length_set]; exact hlen
  cases j with
  | zero =>
    have hf0 : o 0 = WOut.fail := hf
    have hred : write_ndef_message o 0 t msg = (false, t, 1) := by
      unfold write_ndef_message
      rw [hccr, if_neg hnot4]
      simp [pageWrite, hf0]
    rw [hred]
    exact ⟨rfl, hlen, fun _ => rfl, fun habs => absurd habs (by omega)⟩
  | succ j =>
    have hok0 : o 0 = WOut.ok := hpre 0 (by omega)
    by_cases hjP : j + 1 < msg.length / 4
    · -- failure inside the payload-page loop
      have hdata := writeDataPages_firstfail o (msg.drop 4) 5 1 j
        (t.set 4 [0x03, 0x00, 0x00, 0x00]) hdvd4 (by rw [hdroplen]; omega) ht1len
        (fun n hn => hpre (1 + n) (by omega)) (by omega) (by
          have : 1 + j = j + 1 := by omega
          rw [this]; exact hf)
      have hred : write_ndef_message o 0 t msg =
          (false,
            (writeDataPages o 1 (t.set 4 [0x03, 0x00, 0x00, 0x00]) (msg.drop 4) 5).2.1,
            (writeDataPages o 1 (t.set 4 [0x03, 0x00, 0x00, 0x00]) (msg.drop 4) 5).2.2) := by
        unfold write_ndef_message
        rw [hccr, if_neg hnot4]
        simp [pageWrite, hok0, hdata.1]
      rw [hred]
      refine ⟨rfl, hdata.2.1, fun habs => absurd habs (by omega), fun _ q => ?_⟩
      rw [hdata.2.2 q]
      by_cases hq : q = 4
      · subst hq
        rw [if_neg (by omega), if_pos rfl, pageOf_set, if_pos ⟨rfl, by omega⟩]
      · rw [if_neg hq]
        by_cases hin : 5 ≤ q ∧ q < 5 + j
        · rw [if_pos hin, if_pos (by omega), List.drop_drop]
          congr 2
          omega
        · rw [if_neg hin, if_neg (by omega), pageOf_set, if_neg (by simp [hq])]
    · -- failure at the final header rewrite
      have hjeq : j + 1 = msg.length / 4 := by omega
      have hdata := writeDataPages_allok o (msg.drop 4) 5 1
        (t.set 4 [0x03, 0x00, 0x00, 0x00]) hdvd4 (by rw [hdroplen]; omega) ht1len
        (fun n hn => hpre (1 + n) (by omega))
      have hfk : o (writeDataPages o 1 (t.set 4 [0x03, 0x00, 0x00, 0x00])
          (msg.drop 4) 5).2.2 = WOut.fail := by
        rw [hdata.2.1]
        have heq : 1 + (msg.drop 4).length / 4 = j + 1 := by omega
        rw [heq]
        exact hf
      have hred : write_ndef_message o 0 t msg =
          (false,
            (writeDataPages o 1 (t.set 4 [0x03, 0x00, 0x00, 0x00]) (msg.drop 4) 5).2.1,
            (writeDataPages o 1 (t.set 4 [0x03, 0x00, 0x00, 0x00]) (msg.drop 4) 5).2.2
              + 1) := by
        unfold write_ndef_message
        rw [hccr, if_neg hnot4]
        simp [pageWrite, hok0, hdata.1, hfk]
      rw [hred]
      refine ⟨rfl, hdata.2.2.1, fun habs => absurd habs (by omega), fun _ q => ?_⟩
      rw [hdata.2.2.2 q]
      by_cases hq : q = 4
      · subst hq
        rw [if_neg (by omega), if_pos rfl, pageOf_set, if_pos ⟨rfl, by omega⟩]
      · rw [if_neg hq]
        by_cases hin : 5 ≤ q ∧ q < 5 + (msg.drop 4).length / 4
        · rw [if_pos hin, if_pos (by omega), List.drop_drop]
          congr 2
          omega
        · rw [if_neg hin, if_neg (by omega), pageOf_set, if_neg (by simp [hq])]

/-- `getD` through `drop`. -/
theorem getD_drop (l : List Nat) (a k d : Nat) : (l.drop a).getD k d = l.getD (a + k) d := by
  simp [List.getD_eq_getElem?_getD, List.getElem?_drop]

/-- `getD` in the left part of an append. -/
theorem getD_append_lt (l1 l2 : List Nat) (i d : Nat) (h : i < l1.length) :
    (l1 ++ l2).getD i d = l1.getD i d := by
  simp [List.getD_eq_getElem?_getD, List.getElem?_append_left h]

/-- `getD` in the right part of an append. -/
theorem getD_append_ge (l1 l2 : List Nat) (i d : Nat) (h : l1.length ≤ i) :
    (l1 ++ l2).getD i d = l2.getD (i - l1.length) d := by
  simp [List.getD_eq_getElem?_getD, List.getElem?_append_right h]

/-- `getD` through `take`, inside the prefix. -/
theorem getD_take_lt (l : List Nat) (a i d : Nat) (h : i < a) :
    (l.take a).getD i d = l.getD i d := by
  rw [List.getD_eq_getElem?_getD, List.getD_eq_getElem?_getD, List.getElem?_take_of_lt h]

/-- The page-read loop only looks at the pages it visits. -/
theorem readPagesLoop_congr (t t2 : Tag) :
    ∀ ps : List Nat, (∀ p ∈ ps, pageOf t p = pageOf t2 p) →
      readPagesLoop t ps = readPagesLoop t2 ps
  | [], _ => rfl
  | p :: ps, h => by
    unfold readPagesLoop
    rw [h p (by simp)]
    rw [readPagesLoop_congr t t2 ps (fun q hq => h q (by simp [hq]))]

/-- If pages `p‥s` spell out consecutive 4-byte chunks of `S` and the
terminator byte first appears in page `s`, the page-read loop returns
exactly the corresponding prefix of `S`. -/
theorem readPagesLoop_spell (t : Tag) :
    ∀ (n p s : Nat) (S : List Nat), p ≤ s → s < p + n →
      (∀ j, p ≤ j → j ≤ s → pageOf t j = (S.drop (4 * (j - p))).take 4) →
      (∀ j, p ≤ j → j < s → 0xFE ∉ pageOf t j) →
      0xFE ∈ pageOf t s →
      readPagesLoop t (List.range' p n) = S.take (4 * (s + 1 - p))
  | 0, p, s, S, hps, hsn, _, _, _ => by omega
  | n + 1, p, s, S, hps, hsn, hsp, hno, hfe => by
    rw [List.range'_succ]
    unfold readPagesLoop
    by_cases hp : p = s
    · subst hp
      rw [if_pos hfe]
      have h0 := hsp p (le_refl p) (le_refl p)
      rw [h0]
      simp
    · have hlt : p < s := by omega
      rw [if_neg (hno p (le_refl p) hlt)]
      have hrec := readPagesLoop_spell t n (p + 1) s (S.drop 4) (by omega) (by omega)
        (fun j hj1 hj2 => by
          rw [hsp j (by omega) hj2, List.drop_drop]
          congr 2
          omega)
        (fun j hj1 hj2 => hno j (by omega) hj2) hfe
      rw [hrec]
      have h0 := hsp p (le_refl p) (by omega)
      rw [h0]
      simp only [Nat.sub_self, Nat.mul_zero, List.drop_zero]
      rw [← List.take_add]
      congr 1
      omega

/-- If every visited page is either a 4-byte chunk of `S` at its aligned
offset or an all-zero page, then every byte the loop returns is either
the corresponding byte of `S` or zero. -/
theorem readPagesLoop_pointwise (t : Tag) :
    ∀ (n p : Nat) (S : List Nat),
      (∀ q, p ≤ q → q < p + n →
        (pageOf t q = (S.drop (4 * (q - p))).take 4 ∧
          ((S.drop (4 * (q - p))).take 4).length = 4) ∨
        pageOf t q = [0, 0, 0, 0]) →
      ∀ i, (readPagesLoop t (List.range' p n)).getD i 0 = S.getD i 0 ∨
        (readPagesLoop t (List.range' p n)).getD i 0 = 0
  | 0, p, S, _, i => by
    right
    rfl
  | n + 1, p, S, hpg, i => by
    rw [List.range'_succ]
    unfold readPagesLoop
    have hrec := readPagesLoop_pointwise t n (p + 1) (S.drop 4)
      (fun q hq1 hq2 => by
        rcases hpg q (by omega) (by omega) with ⟨h1, h2⟩ | h1
        · left
          rw [List.drop_drop]
          have harith : 4 + 4 * (q - (p + 1)) = 4 * (q - p) := by omega
          rw [harith]
          exact ⟨h1, h2⟩
        · right
          exact h1)
    rcases hpg p (le_refl p) (by omega) with ⟨h1, h2⟩ | h1
    · by_cases hfe : (0xFE : Nat) ∈ pageOf t p
      · rw [if_pos hfe, h1]
        simp only [Nat.sub_self, Nat.mul_zero, List.drop_zero]
        by_cases hi : i < 4
        · left
          exact getD_take_lt S 4 i 0 hi
        · right
          apply getD_eq_default_of_le
          rw [Nat.sub_self, Nat.mul_zero, List.drop_zero] at h2
          omega
      · rw [if_neg hfe, h1]
        simp only [Nat.sub_self, Nat.mul_zero, List.drop_zero] at h2 ⊢
        by_cases hi : i < 4
        · rw [getD_append_lt _ _ i 0 (by omega)]
          left
          exact getD_take_lt S 4 i 0 hi
        · rw [getD_append_ge _ _ i 0 (by omega), h2]
          rcases hrec (i - 4) with h | h
          · left
            rw [h, getD_drop]
            congr 1
            omega
          · right
            exact h
    · have hfe : ¬ (0xFE : Nat) ∈ pageOf t p := by
        rw [h1]
        decide
      rw [if_neg hfe, h1]
      by_cases hi : i < 4
      · right
        rw [getD_append_lt _ _ i 0 (by simp [hi])]
        interval_cases i <;> rfl
      · rw [getD_append_ge _ _ i 0 (by simp; omega)]
        have hlen4 : ([0, 0, 0, 0] : List Nat).length = 4 := rfl
        rw [hlen4]
        rcases hrec (i - 4) with h | h
        · left
          rw [h, getD_drop]
          congr 1
          omega
        · right
          exact h

/-- The scan-killing condition transfers from `S` to any buffer that
agrees with `S` pointwise except for zeroed bytes. -/
theorem scanCond_transfer (B S : List Nat)
    (hpt : ∀ i, B.getD i 0 = S.getD i 0 ∨ B.getD i 0 = 0)
    (hS : ∀ i, S.getD i 0 = 3 →
      S.getD (i + 1) 0 = 0 ∨ S.getD (i + 2) 0 < 128 ∨ S.getD (i + 2) 0 / 32 % 2 = 1) :
    ∀ i, B.getD i 0 = 3 →
      B.getD (i + 1) 0 = 0 ∨ B.getD (i + 2) 0 < 128 ∨ B.getD (i + 2) 0 / 32 % 2 = 1 := by
  intro i h3
  have hS3 : S.getD i 0 = 3 := by
    rcases hpt i with h | h
    · rw [← h]; exact h3
    · rw [h] at h3; omega
  rcases hS i hS3 with h | h | h
  · rcases hpt (i + 1) with hb | hb
    · left; rw [hb, h]
    · left; exact hb
  · rcases hpt (i + 2) with hb | hb
    · right; left; rw [hb]; exact h
    · right; left; rw [hb]; omega
  · rcases hpt (i + 2) with hb | hb
    · right; right; rw [hb]; exact h
    · right; left; rw [hb]; omega

/-- Bytes of the `rest ++ 0xFE :: padding` tail of an encoded message:
each is the terminator, a printable URI byte, or zero. -/
theorem restTerm_byte (rest2 : List Nat) (padc k : Nat)
    (hr : ∀ b ∈ rest2, 32 ≤ b ∧ b < 128) :
    (rest2 ++ 254 :: List.replicate padc 0).getD k 0 = 254 ∨
    (32 ≤ (rest2 ++ 254 :: List.replicate padc 0).getD k 0 ∧
      (rest2 ++ 254 :: List.replicate padc 0).getD k 0 < 128) ∨
    (rest2 ++ 254 :: List.replicate padc 0).getD k 0 = 0 := by
  by_cases hk : k < rest2.length
  · right; left
    rw [getD_append_lt _ _ k 0 hk]
    refine hr _ ?_
    rw [getD_eq_getElem_of_lt rest2 k hk]
    exact List.getElem_mem hk
  · rw [getD_append_ge _ _ k 0 (by omega)]
    rcases hke : k - rest2.length with _ | k2
    · left; rfl
    · right; right
      rw [List.getD_cons_succ]
      by_cases h2 : k2 < padc
      · exact getD_replicate_of_lt padc k2 0 0 h2
      · exact getD_eq_default_of_le _ _ (by simp; omega) 0

/-- The scan-killing condition holds for the idealized partial-write
byte sequence: placeholder header page, then the message payload from
its fifth byte on (`PLEN, 'U', identifier code, URI tail, 0xFE,
padding`).  The message header bytes `0xD1 01` never reach the tag
before the final header rewrite, so no window of this sequence can begin
a well-formed message. -/
theorem scanCond_partial_seq (plen code padc : Nat) (rest2 : List Nat)
    (hcode : code < 36) (hr : ∀ b ∈ rest2, 32 ≤ b ∧ b < 128) :
    ∀ i, (3 :: 0 :: 0 :: 0 :: plen :: 85 :: code ::
        (rest2 ++ 254 :: List.replicate padc 0)).getD i 0 = 3 →
      (3 :: 0 :: 0 :: 0 :: plen :: 85 :: code ::
        (rest2 ++ 254 :: List.replicate padc 0)).getD (i + 1) 0 = 0 ∨
      (3 :: 0 :: 0 :: 0 :: plen :: 85 :: code ::
        (rest2 ++ 254 :: List.replicate padc 0)).getD (i + 2) 0 < 128 ∨
      (3 :: 0 :: 0 :: 0 :: plen :: 85 :: code ::
        (rest2 ++ 254 :: List.replicate padc 0)).getD (i + 2) 0 / 32 % 2 = 1 := by
  intro i h3
  match i with
  | 0 => left; rfl
  | 1 => simp [List.getD_cons_succ, List.getD_cons_zero] at h3
  | 2 => simp [List.getD_cons_succ, List.getD_cons_zero] at h3
  | 3 => simp [List.getD_cons_succ, List.getD_cons_zero] at h3
  | 4 =>
    right; left
    simp only [List.getD_cons_succ, List.getD_cons_zero]
    omega
  | 5 => simp [List.getD_cons_succ, List.getD_cons_zero] at h3
  | 6 =>
    simp only [List.getD_cons_succ]
    rcases restTerm_byte rest2 padc 1 hr with h | h | h
    · right; right
      rw [h]
    · right; left
      omega
    · right; left
      omega
  | k + 7 =>
    exfalso
    simp only [List.getD_cons_succ] at h3
    rcases restTerm_byte rest2 padc k hr with h | h | h <;> omega

/-!
### C3: `_pcsc_write_page` retry discipline
-/

/-- A transport-like exception at transmit `n` (with no reconnect spent):
one disconnect, one T=1 reconnect, one retransmit; the call succeeds iff
that single retransmit answers `90 00`; a failed reconnect ends the call
after the disconnect. -/
theorem pcscWriteLoop_exn (tx : Nat → TxOut) (c : Bool) (r n a : Nat)
    (h : tx n = TxOut.exn true) :
    pcscWriteLoop tx c r n a false =
      (if c then
        ((match tx (n + 1) with
          | TxOut.resp s1 s2 => decide (s1 = 0x90 ∧ s2 = 0x00)
          | TxOut.exn _ => false),
          [PEv.txmit, PEv.discon, PEv.reconT1, PEv.sleep50, PEv.txmit])
      else (false, [PEv.txmit, PEv.discon])) := by
  rw [pcscWriteLoop, h]
  simp only [not_false_eq_true, true_and, if_true]
  cases c with
  | true =>
    simp only [if_true]
    cases htx : tx (n + 1) with
    | resp s1 s2 => simp [htx]
    | exn b => simp [htx]
  | false => simp

/-- `j` NACK answers then a transport-like exception: the NACK retries
each sleep 50 ms between transmits, then the single reconnect-and-
retransmit runs. -/
theorem pcscWriteLoop_nacks_then_exn (tx : Nat → TxOut) (c : Bool) (r : Nat) :
    ∀ (j n a : Nat), a + j ≤ r →
      (∀ k, k < j → ∃ s, tx (n + k) = TxOut.resp 0x63 s) →
      tx (n + j) = TxOut.exn true →
      pcscWriteLoop tx c r n a false =
        ((if c then
            (match tx (n + j + 1) with
              | TxOut.resp s1 s2 => decide (s1 = 0x90 ∧ s2 = 0x00)
              | TxOut.exn _ => false)
          else false),
          (List.replicate j ([PEv.txmit, PEv.sleep50])).flatten ++
            (if c then [PEv.txmit, PEv.discon, PEv.reconT1, PEv.sleep50, PEv.txmit]
             else [PEv.txmit, PEv.discon])) := by
  intro j
  induction j with
  | zero =>
    intro n a _ _ hexn
    rw [pcscWriteLoop_exn tx c r n a (by simpa using hexn)]
    cases c <;> simp
  | succ j ih =>
    intro n a hle hnack hexn
    obtain ⟨s, hs⟩ := hnack 0 (Nat.succ_pos j)
    simp only [Nat.add_zero] at hs
    rw [pcscWriteLoop, hs]
    have ha : a < r := by omega
    have hrec := ih (n + 1) (a + 1) (by omega)
      (fun k hk => by
        have := hnack (k + 1) (by omega)
        simpa [Nat.add_comm, Nat.add_assoc, Nat.add_left_comm] using this)
      (by
        have : n + 1 + j = n + (j + 1) := by omega
        rw [this]; exact hexn)
    simp only [hrec]
    have hn : n + 1 + j = n + (j + 1) := by omega
    rw [hn] at hrec ⊢
    simp [List.replicate_succ, ha]

/-- NACK answers on every remaining retry: exhaustion returns failure
after exactly `r - a + 1` transmits with sleeps in between. -/
theorem pcscWriteLoop_nack_exhaust (tx : Nat → TxOut) (c : Bool) (r : Nat) :
    ∀ (m n a : Nat), r - a = m →
      (∀ k, k ≤ m → ∃ s, tx (n + k) = TxOut.resp 0x63 s) →
      pcscWriteLoop tx c r n a false =
        (false, (List.replicate m ([PEv.txmit, PEv.sleep50])).flatten ++ [PEv.txmit]) := by
  intro m
  induction m with
  | zero =>
    intro n a hm hnack
    obtain ⟨s, hs⟩ := hnack 0 (Nat.le_refl 0)
    simp only [Nat.add_zero] at hs
    rw [pcscWriteLoop, hs]
    have : ¬ a < r := by omega
    simp [this]
  | succ m ih =>
    intro n a hm hnack
    obtain ⟨s, hs⟩ := hnack 0 (Nat.zero_le _)
    simp only [Nat.add_zero] at hs
    rw [pcscWriteLoop, hs]
    have ha : a < r := by omega
    have hrec := ih (n + 1) (a + 1) (by omega)
      (fun k hk => by
        have := hnack (k + 1) (by omega)
        simpa [Nat.add_comm, Nat.add_assoc, Nat.add_left_comm] using this)
    simp [hrec, ha, List.replicate_succ]

/-- The reconnect is attempted at most once in any run of the loop. -/
theorem pcscWriteLoop_recon_le_one (tx : Nat → TxOut) (c : Bool) (r : Nat) :
    ∀ (m n a : Nat) (d : Bool), r - a ≤ m →
      ((pcscWriteLoop tx c r n a d).2.count PEv.reconT1) ≤ 1 := by
  intro m
  induction m with
  | zero =>
    intro n a d hm
    rw [pcscWriteLoop]
    cases htx : tx n with
    | resp s1 s2 =>
      by_cases h90 : s1 = 0x90 ∧ s2 = 0x00
      · simp [h90]
      · have : ¬ (s1 = 0x63 ∧ a < r) := by
          rintro ⟨_, ha⟩; omega
        simp [h90, this]
    | exn b =>
      cases htx2 : tx (n + 1) <;> cases d <;> cases b <;> cases c <;>
        simp [htx2, List.count_cons]
  | succ m ih =>
    intro n a d hm
    rw [pcscWriteLoop]
    cases htx : tx n with
    | resp s1 s2 =>
      by_cases h90 : s1 = 0x90 ∧ s2 = 0x00
      · simp [h90]
      · by_cases h63 : s1 = 0x63 ∧ a < r
        · have hrec := ih (n + 1) (a + 1) d (by omega)
          simp only [h90, if_false, h63, if_true]
          simpa using hrec
        · simp [h90, h63]
    | exn b =>
      cases htx2 : tx (n + 1) <;> cases d <;> cases b <;> cases c <;>
        simp [htx2, List.count_cons]

/-- **C3.** `_pcsc_write_page` (default `retries = 4`): (1) if the first
five transmits all answer `sw1 = 0x63`, the command is retried exactly 4
additional times, with a 50 ms sleep between consecutive transmits, and
the call returns failure; (2) if, after `j ≤ 4` NACK answers, a transmit
raises a transport/protocol exception, then exactly one
disconnect-and-reconnect (T=1 protocol) followed by a single retransmit
of the same command is attempted — the call succeeds iff that single
retransmit answers `90 00`, and a failed reconnect ends the call right
after the disconnect; (3) in every run, at most one reconnect is ever
attempted. -/
theorem c3_pcsc_write_page_retry (tx : Nat → TxOut) (c : Bool) :
    ((∀ k, k ≤ 4 → ∃ s, tx k = TxOut.resp 0x63 s) →
      _pcsc_write_page tx c =
        (false, (List.replicate 4 ([PEv.txmit, PEv.sleep50])).flatten ++ [PEv.txmit])) ∧
    (∀ j, j ≤ 4 → (∀ k, k < j → ∃ s, tx k = TxOut.resp 0x63 s) →
      tx j = TxOut.exn true →
      _pcsc_write_page tx c =
        ((if c then
            (match tx (j + 1) with
              | TxOut.resp s1 s2 => decide (s1 = 0x90 ∧ s2 = 0x00)
              | TxOut.exn _ => false)
          else false),
          (List.replicate j ([PEv.txmit, PEv.sleep50])).flatten ++
            (if c then [PEv.txmit, PEv.discon, PEv.reconT1, PEv.sleep50, PEv.txmit]
             else [PEv.txmit, PEv.discon]))) ∧
    (_pcsc_write_page tx c).2.count PEv.reconT1 ≤ 1 := by
  refine ⟨?_, ?_, ?_⟩
  · intro h
    exact pcscWriteLoop_nack_exhaust tx c 4 4 0 0 (by omega)
      (fun k hk => by simpa using h k hk)
  · intro j hj hnack hexn
    have h := pcscWriteLoop_nacks_then_exn tx c 4 j 0 0 (by omega)
      (fun k hk => by simpa using hnack k hk) (by simpa using hexn)
    simpa using h
  · exact pcscWriteLoop_recon_le_one tx c 4 4 0 0 false (by omega)

/-- Witness for C3 at a concrete transmit oracle: four NACKs then a
transport fault, with a successful reconnect and a `90 00` retransmit. -/
theorem c3_pcsc_write_page_retry_witness :
    _pcsc_write_page
        (fun n => if n < 4 then TxOut.resp 0x63 0 else
          if n = 4 then TxOut.exn true else TxOut.resp 0x90 0x00) true =
      (true, (List.replicate 4 ([PEv.txmit, PEv.sleep50])).flatten ++
        [PEv.txmit, PEv.discon, PEv.reconT1, PEv.sleep50, PEv.txmit]) := by
  have h := (c3_pcsc_write_page_retry
      (fun n => if n < 4 then TxOut.resp 0x63 0 else
        if n = 4 then TxOut.exn true else TxOut.resp 0x90 0x00) true).2.1
    4 (by omega) (fun k hk => ⟨0, by simp [hk]⟩) (by simp)
  simpa using h

/-!
### C7: `Settings.rewrite_url`
-/

/-- The first element surviving `dropWhile` fails the predicate. -/
theorem dropWhile_cons_not {α : Type} {p : α → Bool} :
    ∀ {l : List α} {c : α} {cs : List α}, l.dropWhile p = c :: cs → ¬ p c = true
  | [], c, cs, h => by simp at h
  | a :: l, c, cs, h => by
    by_cases hp : p a
    · rw [List.dropWhile_cons_of_pos hp] at h
      exact dropWhile_cons_not h
    · rw [List.dropWhile_cons_of_neg hp] at h
      cases h
      exact hp

/-- **C7.** `rewrite_url` is total by construction (no exception reaches
the caller).  (1) An empty pattern or target returns the URL unchanged
with `wasRewritten = false`; (2) so does a pattern that failed to
compile (`matcher = none`); (3) so does a non-match; (4) on a match the
result is the target base normalized to end with exactly one `/`
followed by the capture group, with `wasRewritten = true` — and the
normalized base never ends in a double slash; (5) under the default
pattern and target, `https://10.0.0.9//item/xyz` rewrites to
`https://your-domain.com/item/xyz` and `https://example.com/item/xyz` is
returned unchanged. -/
theorem c7_rewrite_url (pattern target url : String) :
    ((pattern = "" ∨ target = "") →
      ∀ matcher, rewrite_url pattern target matcher url = (url, false)) ∧
    (rewrite_url pattern target none url = (url, false)) ∧
    (∀ m, m url = none → rewrite_url pattern target (some m) url = (url, false)) ∧
    (∀ m g, pattern ≠ "" → target ≠ "" → m url = some g →
      rewrite_url pattern target (some m) url =
        (rstripSlash target ++ "/" ++ g, true) ∧
      (rstripSlash target).data.getLastD 'x' ≠ '/') ∧
    (defaultRewrite "https://10.0.0.9//item/xyz" =
        ("https://your-domain.com/item/xyz", true) ∧
      defaultRewrite "https://example.com/item/xyz" =
        ("https://example.com/item/xyz", false)) := by
  refine ⟨?_, ?_, ?_, ?_, ?_⟩
  · intro h matcher
    simp [rewrite_url, h]
  · by_cases h : pattern = "" ∨ target = "" <;> simp [rewrite_url, h]
  · intro m hm
    by_cases h : pattern = "" ∨ target = "" <;> simp [rewrite_url, h, hm]
  · intro m g hp ht hm
    constructor
    · have h : ¬ (pattern = "" ∨ target = "") := by simp [hp, ht]
      simp [rewrite_url, h, hm]
    · unfold rstripSlash
      cases hrev : target.data.reverse.dropWhile (fun c => c = '/') with
      | nil => simp [hrev]
      | cons c cs =>
        have hc := dropWhile_cons_not hrev
        simp [hrev, List.getLastD_concat]
        simpa using hc
  · constructor <;> rfl

/-- Witness for C7: the match conjunct applied to the default matcher at
a concrete URL. -/
theorem c7_rewrite_url_witness :
    rewrite_url DEFAULT_PATTERN DEFAULT_TARGET (some defaultPatternMatch)
        "https://10.0.0.9//item/xyz" =
      ("https://your-domain.com" ++ "/item" ++ "/" ++ "xyz", true) := by
  have h := ((c7_rewrite_url DEFAULT_PATTERN DEFAULT_TARGET
      "https://10.0.0.9//item/xyz").2.2.2.1 defaultPatternMatch "xyz"
      (by decide) (by decide) (by rfl)).1
  simpa using h

/-!
### C4: locked-tag priority in write mode
-/

/-- A success message always starts with `Written`, so it is never the
locked-tag message. -/
theorem written_ne_locked (s1 s2 : String) :
    ("Written" ++ s1 ++ s2) ≠ "Locked tag detected" := by
  intro h
  have h2 := congrArg (fun x => x.data.head?) h
  simp only [String.data_append] at h2
  simp at h2

/-- `_has_ndef_content` returns either `(true, some url)` or
`(false, none)`. -/
theorem has_ndef_content_shape (t : Tag) :
    (∃ u, _has_ndef_content t = (true, some u)) ∨ _has_ndef_content t = (false, none) := by
  unfold _has_ndef_content
  cases read_ndef_message t with
  | none => exact Or.inr rfl
  | some u =>
    by_cases h : u ≠ [] ∧ _is_valid_url u
    · exact Or.inl ⟨u, by simp [h]⟩
    · exact Or.inr (by simp [h])

/-- A positive `_has_ndef_content` answer carries a nonempty valid URL. -/
theorem has_ndef_content_true_props (t : Tag) (v : List Nat)
    (h : _has_ndef_content t = (true, some v)) :
    read_ndef_message t = some v ∧ v ≠ [] ∧ _is_valid_url v = true := by
  unfold _has_ndef_content at h
  cases hr : read_ndef_message t with
  | none => rw [hr] at h; simp at h
  | some u =>
    rw [hr] at h
    have h1 : (if u ≠ [] ∧ _is_valid_url u = true then
        ((true : Bool), (some u : Option (List Nat))) else (false, none)) =
        (true, some v) := h
    by_cases hv : u ≠ [] ∧ _is_valid_url u = true
    · rw [if_pos hv] at h1
      have h2 : u = v := Option.some.inj (congrArg Prod.snd h1)
      subst h2
      exact ⟨rfl, hv.1, hv.2⟩
    · rw [if_neg hv] at h1
      exact absurd (congrArg Prod.fst h1) (by simp)

/-- Membership in an if-then-else over an optional log-message list. -/
theorem notMem_ite_nil {α : Type} (x : α) (c : Prop) [Decidable c] (l : List α)
    (h : x ∉ l) : x ∉ (if c then l else []) := by
  split
  · exact h
  · simp

/-- **C4.** In write mode on a locked tag: (1) if the tag carries a
valid URL, only `onLockedTagWithUrl` fires — for every write oracle the
handler performs no page write, leaves the state and tag unchanged, and
neither the generic locked-tag write callback nor the overwrite guard
fires; (2) if the tag carries no valid URL, only the generic
`onTagWritten("Locked tag detected")` fires; (3) conversely that generic
callback fires only on a locked tag without valid URL; (4) on any locked
tag, whatever the overwrite flag, the overwrite guard never fires and
the tag is never written. -/
theorem c4_locked_tag_priority (o : Nat → WOut) (st : HState) (t : Tag) :
    (∀ u eu, st.url_to_write = some u → u ≠ [] →
      is_tag_locked t = true → _has_ndef_content t = (true, some eu) →
      ∀ o', handle_write_mode o' st t = (st, t, [Ev.evLockedTag eu])) ∧
    (∀ u, st.url_to_write = some u → u ≠ [] →
      is_tag_locked t = true → (_has_ndef_content t).1 = false →
      ∀ o', handle_write_mode o' st t = (st, t, [Ev.evWrite "Locked tag detected"])) ∧
    (Ev.evWrite "Locked tag detected" ∈ (handle_write_mode o st t).2.2 →
      is_tag_locked t = true ∧ (_has_ndef_content t).1 = false) ∧
    (is_tag_locked t = true →
      Ev.evWrite "Write blocked: tag has existing data" ∉ (handle_write_mode o st t).2.2 ∧
      (handle_write_mode o st t).2.1 = t) := by
  refine ⟨?_, ?_, ?_, ?_⟩
  · intro u eu hurl hu hlock hcont o'
    have heu := (has_ndef_content_true_props t eu hcont).2.1
    simp [handle_write_mode, hurl, hu, hlock, hcont, heu]
  · intro u hurl hu hlock hcont o'
    rcases has_ndef_content_shape t with ⟨v, hv⟩ | hv
    · rw [hv] at hcont; simp at hcont
    · simp [handle_write_mode, hurl, hu, hlock, hv]
  · intro hmem
    cases hurl : st.url_to_write with
    | none => simp [handle_write_mode, hurl] at hmem
    | some u =>
      by_cases hu : u = []
      · simp [handle_write_mode, hurl, hu] at hmem
      · by_cases hlock : is_tag_locked t
        · rcases has_ndef_content_shape t with ⟨v, hv⟩ | hv
          · have hv2 := (has_ndef_content_true_props t v hv).2.1
            simp [handle_write_mode, hurl, hu, hlock, hv, hv2] at hmem
          · exact ⟨hlock, by rw [hv]⟩
        · exfalso
          by_cases hex : (_has_ndef_content t).1 = true ∧ st.allow_overwrite = false
          · simp [handle_write_mode, hurl, hu, hlock, hex] at hmem
          · cases hcr : create_ndef_record u with
            | none => simp [handle_write_mode, hurl, hu, hlock, hex, hcr] at hmem
            | some msg =>
              by_cases hw1 : (write_ndef_message o 0 t msg).1
              · by_cases hrv :
                    read_ndef_message (write_ndef_message o 0 t msg).2.1 = some u
                · simp [handle_write_mode, hurl, hu, hlock, hex, hcr, hw1, hrv] at hmem
                  have h2 := congrArg (fun s => s.data.head?) hmem
                  simp at h2
                · simp [handle_write_mode, hurl, hu, hlock, hex, hcr, hw1, hrv] at hmem
              · simp [handle_write_mode, hurl, hu, hlock, hex, hcr, hw1] at hmem
  · intro hlock
    cases hurl : st.url_to_write with
    | none => simp [handle_write_mode, hurl]
    | some u =>
      by_cases hu : u = []
      · simp [handle_write_mode, hurl, hu]
      · rcases has_ndef_content_shape t with ⟨v, hv⟩ | hv
        · have hv2 := (has_ndef_content_true_props t v hv).2.1
          simp [handle_write_mode, hurl, hu, hlock, hv, hv2]
        · simp [handle_write_mode, hurl, hu, hlock, hv]

/-- Witness for C4: a locked tag carrying `urlA` triggers only the
locked-tag-with-URL callback. -/
theorem c4_locked_tag_priority_witness :
    handle_write_mode wFail stW lockedTagA = (stW, lockedTagA, [Ev.evLockedTag urlA]) := by
  exact (c4_locked_tag_priority wOk stW lockedTagA).1 urlA urlA rfl (by decide)
    (by rfl) (by rfl) wFail

/-!
### C9: batch counter increments exactly on confirmed success
-/

/-- **C9 (amended).** `batch_count` after a write-mode card event: it is
incremented exactly when the event is a confirmed write success (all
low-level page writes report success and the immediate read-back
verification matches) *and* a batch operation is in progress
(`batch_total > 1`); every blocked, failed, or silently-rejected write —
and every confirmed success outside a multi-tag batch — leaves it
unchanged. -/
theorem c9_batch_increment (o : Nat → WOut) (st : HState) (t : Tag) :
    (handle_write_mode o st t).1.batch_count =
      (if confirmedWriteSuccess o st t = true ∧ st.batch_total > 1
       then st.batch_count + 1 else st.batch_count) := by
  cases hurl : st.url_to_write with
  | none => simp [handle_write_mode, confirmedWriteSuccess, hurl]
  | some u =>
    by_cases hu : u = []
    · simp [handle_write_mode, confirmedWriteSuccess, hurl, hu]
    · by_cases hlock : is_tag_locked t
      · rcases has_ndef_content_shape t with ⟨v, hv⟩ | hv
        · have hv2 := (has_ndef_content_true_props t v hv).2.1
          simp [handle_write_mode, confirmedWriteSuccess, hurl, hu, hlock, hv, hv2]
        · simp [handle_write_mode, confirmedWriteSuccess, hurl, hu, hlock, hv]
      · by_cases hex : (_has_ndef_content t).1 = true ∧ st.allow_overwrite = false
        · simp [handle_write_mode, confirmedWriteSuccess, hurl, hu, hlock, hex]
        · cases hcr : create_ndef_record u with
          | none => simp [handle_write_mode, confirmedWriteSuccess, hurl, hu, hlock, hex, hcr]
          | some msg =>
            by_cases hw1 : (write_ndef_message o 0 t msg).1
            · by_cases hrv : read_ndef_message (write_ndef_message o 0 t msg).2.1 = some u
              · by_cases hb : st.batch_total > 1
                · simp [handle_write_mode, confirmedWriteSuccess, hurl, hu, hlock, hex,
                    hcr, hw1, hrv, hb]
                · simp [handle_write_mode, confirmedWriteSuccess, hurl, hu, hlock, hex,
                    hcr, hw1, hrv, hb]
              · simp [handle_write_mode, confirmedWriteSuccess, hurl, hu, hlock, hex,
                  hcr, hw1, hrv]
            · simp [handle_write_mode, confirmedWriteSuccess, hurl, hu, hlock, hex,
                hcr, hw1]

set_option maxRecDepth 4000 in
/-- Counterexample to C9 as stated: a confirmed write success with
`batch_total = 1` (a defined batch of one tag) does not increment
`batch_count` — the code only counts when `batch_total > 1`. -/
theorem c9_counterexample :
    confirmedWriteSuccess wOk { stW with batch_total := 1 } blankTag = true ∧
    ({ stW with batch_total := 1 } : HState).batch_count = 0 ∧
    (handle_write_mode wOk { stW with batch_total := 1 } blankTag).1.batch_count = 0 := by
  refine ⟨by rfl, rfl, by rfl⟩

/-!
### C10: the existing-content guard only counts URLs
-/

set_option maxRecDepth 4000 in
/-- **C10.** `_has_ndef_content` classifies a tag as having data exactly
when the decoded NDEF content is truthy and, after stripping whitespace,
starts with `http://` or `https://`.  Consequently a tag with decodable
non-URL NDEF content — concretely `textTag`, which decodes to the text
record payload `hi` — counts as blank, so in write mode with
`allow_overwrite = false` the overwrite guard does not fire and the tag
is overwritten. -/
theorem c10_has_content_strict (t : Tag) :
    ((_has_ndef_content t).1 = true ↔
      ∃ u, read_ndef_message t = some u ∧ u ≠ [] ∧
        ((strBytes "http://").isPrefixOf (stripWs u) = true ∨
         (strBytes "https://").isPrefixOf (stripWs u) = true)) ∧
    (read_ndef_message textTag = some (strBytes "hi") ∧
      (_has_ndef_content textTag).1 = false ∧
      (handle_write_mode wOk stW textTag).2.2 = [Ev.evWrite "Written & verified"] ∧
      read_ndef_message (handle_write_mode wOk stW textTag).2.1 = some urlA) := by
  constructor
  · constructor
    · intro h
      rcases has_ndef_content_shape t with ⟨v, hv⟩ | hv
      · obtain ⟨hr, hne, hval⟩ := has_ndef_content_true_props t v hv
        refine ⟨v, hr, hne, ?_⟩
        unfold _is_valid_url at hval
        simpa using hval
      · rw [hv] at h; simp at h
    · rintro ⟨u, hr, hne, hpre⟩
      have hval : _is_valid_url u = true := by
        unfold _is_valid_url
        rcases hpre with h | h <;> simp [h]
      unfold _has_ndef_content
      rw [hr]
      simp [hne, hval]
  · refine ⟨by rfl, by rfl, by rfl, by rfl⟩

/-!
### C8: read-mode debounce
-/

/-- **C8.** `handle_read_mode`: (1) any card event within the cooldown
window of the last successful read produces no callback and no state
change at all; (2) with the 3-second cooldown, of two events within 3
seconds of a successful read only the first fires `onTagRead`, and a
third event at or past the window fires it again; (3) a decode failure
(no message, or a falsy empty one) never updates the debounce
timestamp (the whole state is unchanged). -/
theorem c8_read_debounce (st : HState) :
    (∀ t now, now - st.last_read_time < st.read_cooldown →
      handle_read_mode st t now = (st, [])) ∧
    (∀ g1 g2 g3 x1 x2 x3 u v,
      st.read_cooldown = 3 →
      3 ≤ x1 - st.last_read_time →
      read_ndef_message g1 = some u → u ≠ [] →
      x2 - x1 < 3 →
      3 ≤ x3 - x1 →
      read_ndef_message g3 = some v → v ≠ [] →
      (handle_read_mode st g1 x1).2 = [Ev.evRead u] ∧
      handle_read_mode (handle_read_mode st g1 x1).1 g2 x2 =
        ((handle_read_mode st g1 x1).1, []) ∧
      (handle_read_mode (handle_read_mode st g1 x1).1 g3 x3).2 = [Ev.evRead v]) ∧
    (∀ t now, (read_ndef_message t = none ∨ read_ndef_message t = some []) →
      (handle_read_mode st t now).1 = st) := by
  refine ⟨?_, ?_, ?_⟩
  · intro t now h
    simp [handle_read_mode, h]
  · intro g1 g2 g3 x1 x2 x3 u v hc h1 hd1 hu h2 h3 hd3 hv
    have hn1 : ¬ x1 - st.last_read_time < st.read_cooldown := by
      rw [hc]; exact not_lt.mpr h1
    have hfirst : handle_read_mode st g1 x1 =
        ({ st with last_read_time := x1 }, [Ev.evRead u]) := by
      simp [handle_read_mode, hn1, hd1, hu]
    refine ⟨by rw [hfirst], ?_, ?_⟩
    · rw [hfirst]
      have : x2 - x1 < st.read_cooldown := by rw [hc]; exact h2
      simp [handle_read_mode, this]
    · rw [hfirst]
      have hn3 : ¬ x3 - x1 < st.read_cooldown := by rw [hc]; exact not_lt.mpr h3
      simp [handle_read_mode, hn3, hd3, hv]
  · intro t now h
    by_cases hw : now - st.last_read_time < st.read_cooldown
    · simp [handle_read_mode, hw]
    · rcases h with h | h <;> simp [handle_read_mode, hw, h]

/-- Witness for C8 at concrete tags and times: reads of `tagA` at times
5, 6 and 9 from cooldown-3 state `stW` (last read at 0). -/
theorem c8_read_debounce_witness :
    (handle_read_mode stW tagA 5).2 = [Ev.evRead urlA] ∧
    handle_read_mode (handle_read_mode stW tagA 5).1 tagA 6 =
      ((handle_read_mode stW tagA 5).1, []) ∧
    (handle_read_mode (handle_read_mode stW tagA 5).1 tagA 9).2 = [Ev.evRead urlA] := by
  have h := (c8_read_debounce stW).2.1 tagA tagA tagA 5 6 9 urlA urlA
    (by rfl) (by norm_num [stW]) (by rfl) (by decide) (by norm_num)
    (by norm_num) (by rfl) (by decide)
  exact h

/-!
### C2: two-phase write atomicity
-/

/-- The explicit shape of a successfully created record: TLV header,
encoded message, terminator, zero padding. -/
theorem create_ndef_record_eq (u : List Nat)
    (h : (encodeNdefMessageUri u).length ≤ 255) :
    create_ndef_record u = some (3 :: (encodeNdefMessageUri u).length ::
      (encodeNdefMessageUri u ++ 254 ::
        List.replicate ((4 - ((encodeNdefMessageUri u).length + 3) % 4) % 4) 0)) := by
  unfold create_ndef_record
  rw [if_pos h]
  simp only [List.length_cons, List.length_append, List.length_nil]
  simp [List.append_assoc]

/-- A message short enough for `create_ndef_record` is in short-record
form. -/
theorem encode_short_form (u : List Nat)
    (h : (encodeNdefMessageUri u).length ≤ 255) :
    (uriPayload u).length < 256 ∧
    encodeNdefMessageUri u =
      0xD1 :: 0x01 :: (uriPayload u).length :: 0x55 :: uriPayload u := by
  have hp : (uriPayload u).length < 256 := by
    by_contra hp
    unfold encodeNdefMessageUri at h
    rw [if_neg hp] at h
    simp only [List.length_cons] at h
    omega
  refine ⟨hp, ?_⟩
  unfold encodeNdefMessageUri
  rw [if_pos hp]

/-- Every byte of the URI record tail comes from the URI itself. -/
theorem uriPrefixSelect_tail_mem (u : List Nat) :
    ∀ x ∈ (uriPrefixSelect u).2, x ∈ u := by
  intro x hx
  have happ := uriPrefixSelect_append u
  rw [← happ]
  exact List.mem_append_right _ hx

/-- No byte of a short-enough encoded URI message is the TLV terminator
`0xFE`, provided the URI consists of printable ASCII. -/
theorem encode_bytes_ne_254 (u : List Nat)
    (hu : ∀ x ∈ u, 32 ≤ x ∧ x < 128)
    (hM : (encodeNdefMessageUri u).length ≤ 141) :
    ∀ i, (encodeNdefMessageUri u).getD i 0 ≠ 254 := by
  have hshape := (encode_short_form u (by omega)).2
  have hlenp : (uriPayload u).length ≤ 137 := by
    have := congrArg List.length hshape
    simp only [List.length_cons] at this
    omega
  have hcode := uriPrefixSelect_code_lt u
  intro i
  rw [hshape]
  match i with
  | 0 => simp
  | 1 => simp
  | 2 =>
    simp only [List.getD_cons_succ, List.getD_cons_zero]
    omega
  | 3 => simp
  | 4 =>
    simp only [List.getD_cons_succ, uriPayload, List.getD_cons_zero]
    omega
  | k + 5 =>
    simp only [List.getD_cons_succ, uriPayload]
    by_cases hk : k < (uriPrefixSelect u).2.length
    · have hmem : (uriPrefixSelect u).2.getD k 0 ∈ (uriPrefixSelect u).2 := by
        rw [getD_eq_getElem_of_lt _ k hk 0]
        exact List.getElem_mem hk
      have := hu _ (uriPrefixSelect_tail_mem u _ hmem)
      omega
    · rw [getD_eq_default_of_le _ k (by omega) 0]
      omega

/-- Under an all-successful oracle, writing a created record to a
45-page tag and reading it back recovers the URI: the composition
argument behind the success cases of C2, C5 and C6. -/
theorem write_allok_read (o : Nat → WOut) (hok : ∀ n, o n = WOut.ok)
    (t : Tag) (hlen : t.length = 45) (u b : List Nat)
    (hu : ∀ x ∈ u, 32 ≤ x ∧ x < 128) (hne : u ≠ [])
    (henc : create_ndef_record u = some b) (hfit : b.length ≤ 144) :
    read_ndef_message (write_ndef_message o 0 t b).2.1 = some u := by
  have h255 : (encodeNdefMessageUri u).length ≤ 255 := by
    by_contra h255
    unfold create_ndef_record at henc
    rw [if_neg (by omega)] at henc
    exact absurd henc (by simp)
  obtain ⟨hp, hshape⟩ := encode_short_form u h255
  have hb : b = 3 :: (encodeNdefMessageUri u).length ::
      (encodeNdefMessageUri u ++ 254 ::
        List.replicate ((4 - ((encodeNdefMessageUri u).length + 3) % 4) % 4) 0) := by
    have h2 := create_ndef_record_eq u h255
    rw [henc] at h2
    exact Option.some.inj h2
  set m := encodeNdefMessageUri u with hm
  set M := m.length with hMdef
  set padc := (4 - (M + 3) % 4) % 4 with hpadc
  have hplen1 : 1 ≤ (uriPayload u).length := by
    rw [uriPayload]
    simp
  have hMge : 5 ≤ M := by
    have h3 := congrArg List.length hshape
    simp only [List.length_cons] at h3
    omega
  have hblen : b.length = M + 3 + padc := by
    rw [hb]
    simp only [List.length_cons, List.length_append, List.length_replicate]
    omega
  have hdvd : 4 ∣ b.length := by
    rw [hblen, hpadc]
    omega
  have h4b : 4 ≤ b.length := by omega
  have hM141 : M ≤ 141 := by omega
  have hbyte : ∀ i, i < 2 + M → b.getD i 0 ≠ 254 := by
    intro i hi
    rw [hb]
    match i, hi with
    | 0, _ => simp
    | 1, _ =>
      simp only [List.getD_cons_succ, List.getD_cons_zero]
      omega
    | k + 2, hi =>
      simp only [List.getD_cons_succ]
      rw [getD_append_lt _ _ k 0 (by omega)]
      exact encode_bytes_ne_254 u hu hM141 k
  have hfeb : b.getD (2 + M) 0 = 254 := by
    rw [hb, show 2 + M = (M + 1) + 1 by omega]
    simp only [List.getD_cons_succ]
    rw [getD_append_ge _ _ M 0 (by omega), show M - m.length = 0 by omega]
    rfl
  have hw := write_ndef_message_allok o hok t b h4b hdvd hfit hlen
  set t' := (write_ndef_message o 0 t b).2.1 with ht'
  have hmap := hw.2.2
  set s := 4 + (2 + M) / 4 with hs
  have hsub : s < 4 + b.length / 4 := by
    rw [hs, hblen]
    omega
  have hs40 : s < 40 := by
    rw [hs]
    omega
  have hchunk : ∀ j, 4 ≤ j → j ≤ s → pageOf t' j = (b.drop (4 * (j - 4))).take 4 := by
    intro j h1 h2
    rw [hmap j (by omega), if_pos ⟨h1, by omega⟩]
  have hno : ∀ j, 4 ≤ j → j < s → (254 : Nat) ∉ pageOf t' j := by
    intro j h1 h2 hmem
    rw [hchunk j h1 (by omega)] at hmem
    obtain ⟨i, hilen, hig⟩ := List.getElem_of_mem hmem
    have hi4 : i < 4 := by
      have h5 := List.length_take 4 (b.drop (4 * (j - 4)))
      omega
    have hgd : ((b.drop (4 * (j - 4))).take 4).getD i 0 = 254 := by
      rw [getD_eq_getElem_of_lt _ i hilen 0]
      exact hig
    rw [getD_take_lt _ 4 i 0 hi4, getD_drop] at hgd
    have hlt : 4 * (j - 4) + i < 2 + M := by
      rw [hs] at h2
      omega
    exact hbyte _ hlt hgd
  have hfes : (254 : Nat) ∈ pageOf t' s := by
    rw [hchunk s (by omega) (le_refl s)]
    have hr4 : (2 + M) % 4 < 4 := by omega
    have hidx : 4 * (s - 4) + (2 + M) % 4 = 2 + M := by
      rw [hs]
      omega
    have hlen2 : (2 + M) % 4 < ((b.drop (4 * (s - 4))).take 4).length := by
      rw [List.length_take, List.length_drop]
      omega
    have hgd : ((b.drop (4 * (s - 4))).take 4).getD ((2 + M) % 4) 0 = 254 := by
      rw [getD_take_lt _ 4 _ 0 hr4, getD_drop, hidx]
      exact hfeb
    rw [getD_eq_getElem_of_lt _ _ hlen2 0] at hgd
    rw [← hgd]
    exact List.getElem_mem hlen2
  have hspell := readPagesLoop_spell t' 36 4 s b (by omega) (by omega) hchunk hno hfes
  unfold read_ndef_message readTagData
  rw [hspell]
  obtain ⟨Y, hY⟩ : ∃ Y, 4 * (s + 1 - 4) = Y + 2 := ⟨4 * (s + 1 - 4) - 2, by omega⟩
  have hYM : M + 1 ≤ Y := by
    rw [hs] at hY
    omega
  have htake : b.take (Y + 2) = 3 :: M ::
      ((m ++ 254 :: List.replicate padc 0).take Y) := by
    rw [hb, show Y + 2 = (Y + 1) + 1 from rfl, List.take_succ_cons, List.take_succ_cons]
  have htail : (m ++ 254 :: List.replicate padc 0).take Y =
      m ++ 254 :: (List.replicate padc 0).take (Y - M - 1) := by
    rw [List.take_append_eq_append_take, List.take_of_length_le (by omega)]
    congr 1
    rw [show Y - m.length = (Y - M - 1) + 1 by omega, List.take_succ_cons]
    simp
  rw [hY, htake, htail]
  refine ndefTlvScan_cons_hit M m _ u [NdefRec.uriR u] hMdef.symm (by omega) ?_ ?_
  · rw [hm]
    exact decode_encode_uri u hp
  · simp [findUriOrText, hne]

/-- Writing a created record to a blank CC-formatted tag with the first
page-write failure at call index `j` (any point up to and including the
final header rewrite): the call reports failure, the tag decodes as no
message at all, and (if the placeholder write landed) page 4 holds the
zero-length placeholder header. -/
theorem write_firstfail_read_none (o : Nat → WOut) (t : Tag) (hlen : t.length = 45)
    (hblank : ∀ q, 4 ≤ q → q < 40 → pageOf t q = [0, 0, 0, 0])
    (hcc : (pageOf t 3).length = 4 ∧ (pageOf t 3).getD 0 0 = 0xE1 ∧
      (pageOf t 3).getD 1 0 = 0x10)
    (u b : List Nat) (hu : ∀ x ∈ u, 32 ≤ x ∧ x < 128)
    (henc : create_ndef_record u = some b) (hfit : b.length ≤ 144)
    (j : Nat) (hpre : ∀ n, n < j → o n = WOut.ok) (hf : o j = WOut.fail)
    (hj : j ≤ b.length / 4) :
    (write_ndef_message o 0 t b).1 = false ∧
    read_ndef_message (write_ndef_message o 0 t b).2.1 = none ∧
    (1 ≤ j → pageOf (write_ndef_message o 0 t b).2.1 4 = [0x03, 0x00, 0x00, 0x00]) := by
  have h255 : (encodeNdefMessageUri u).length ≤ 255 := by
    by_contra h255
    unfold create_ndef_record at henc
    rw [if_neg (by omega)] at henc
    exact absurd henc (by simp)
  obtain ⟨hp, hshape⟩ := encode_short_form u h255
  have hb : b = 3 :: (encodeNdefMessageUri u).length ::
      (encodeNdefMessageUri u ++ 254 ::
        List.replicate ((4 - ((encodeNdefMessageUri u).length + 3) % 4) % 4) 0) := by
    have h2 := create_ndef_record_eq u h255
    rw [henc] at h2
    exact Option.some.inj h2
  set m := encodeNdefMessageUri u with hm
  set M := m.length with hMdef
  set padc := (4 - (M + 3) % 4) % 4 with hpadc
  have hplen1 : 1 ≤ (uriPayload u).length := by
    rw [uriPayload]
    simp
  have hMge : 5 ≤ M := by
    have h3 := congrArg List.length hshape
    simp only [List.length_cons] at h3
    omega
  have hblen : b.length = M + 3 + padc := by
    rw [hb]
    simp only [List.length_cons, List.length_append, List.length_replicate]
    omega
  have hdvd : 4 ∣ b.length := by
    rw [hblen, hpadc]
    omega
  have h4b : 4 ≤ b.length := by omega
  have hff := write_ndef_message_firstfail o t b hcc h4b hdvd hfit hlen j hpre hf hj
  set t2 := (write_ndef_message o 0 t b).2.1 with ht2
  refine ⟨hff.1, ?_, fun h1j => by rw [hff.2.2.2 h1j 4, if_pos rfl]⟩
  set S := 3 :: 0 :: 0 :: 0 :: b.drop 4 with hSdef
  have hS4 : S = [3, 0, 0, 0] ++ b.drop 4 := rfl
  have hSdrop : ∀ n, 4 ≤ n → S.drop n = b.drop n := by
    intro n hn
    rw [hS4, List.drop_append_eq_append_drop,
      show List.drop n [3, 0, 0, 0] = ([] : List Nat) from
        List.drop_eq_nil_of_le (by simp; omega),
      List.nil_append, List.drop_drop]
    congr 1
    simp only [List.length_cons, List.length_nil]
    omega
  have hSshape : S = 3 :: 0 :: 0 :: 0 :: (uriPayload u).length :: 85 ::
      (uriPrefixSelect u).1 ::
      ((uriPrefixSelect u).2 ++ 254 :: List.replicate padc 0) := by
    rw [hSdef, hb, hshape]
    simp [uriPayload, List.cons_append]
  have hScond := scanCond_partial_seq (uriPayload u).length (uriPrefixSelect u).1 padc
    (uriPrefixSelect u).2 (uriPrefixSelect_code_lt u)
    (fun x hx => hu x (uriPrefixSelect_tail_mem u x hx))
  rw [← hSshape] at hScond
  have hpages : ∀ q, 4 ≤ q → q < 4 + 36 →
      (pageOf t2 q = (S.drop (4 * (q - 4))).take 4 ∧
        ((S.drop (4 * (q - 4))).take 4).length = 4) ∨
      pageOf t2 q = [0, 0, 0, 0] := by
    intro q h1 h2
    rcases Nat.eq_zero_or_pos j with hj0 | hj1
    · right
      rw [hff.2.2.1 hj0]
      exact hblank q h1 (by omega)
    · rw [hff.2.2.2 hj1 q]
      by_cases hq4 : q = 4
      · subst hq4
        rw [if_pos rfl]
        left
        rw [show 4 * (4 - 4) = 0 from rfl, List.drop_zero, hSdef]
        exact ⟨rfl, rfl⟩
      · rw [if_neg hq4]
        by_cases hin : 5 ≤ q ∧ q < 4 + j
        · rw [if_pos hin]
          left
          have hx4 : 4 ≤ 4 * (q - 4) := by omega
          rw [hSdrop _ hx4]
          refine ⟨rfl, ?_⟩
          rw [List.length_take, List.length_drop]
          omega
        · rw [if_neg hin]
          right
          exact hblank q h1 (by omega)
  have hpw := readPagesLoop_pointwise t2 36 4 S hpages
  have hcond := scanCond_transfer (readPagesLoop t2 (List.range' 4 36)) S hpw hScond
  unfold read_ndef_message readTagData ndefTlvScan
  exact ndefTlvScanAux_none _ hcond _ _

/-- Basic length facts about a created record: at least two pages of
payload, and 4-byte alignment. -/
theorem create_len_facts (u b : List Nat) (henc : create_ndef_record u = some b) :
    8 ≤ b.length ∧ 4 ∣ b.length := by
  have h255 : (encodeNdefMessageUri u).length ≤ 255 := by
    by_contra h255
    unfold create_ndef_record at henc
    rw [if_neg (by omega)] at henc
    exact absurd henc (by simp)
  obtain ⟨hp, hshape⟩ := encode_short_form u h255
  have hb : b = 3 :: (encodeNdefMessageUri u).length ::
      (encodeNdefMessageUri u ++ 254 ::
        List.replicate ((4 - ((encodeNdefMessageUri u).length + 3) % 4) % 4) 0) := by
    have h2 := create_ndef_record_eq u h255
    rw [henc] at h2
    exact Option.some.inj h2
  have hplen1 : 1 ≤ (uriPayload u).length := by
    rw [uriPayload]
    simp
  have hMge : 5 ≤ (encodeNdefMessageUri u).length := by
    have h3 := congrArg List.length hshape
    simp only [List.length_cons] at h3
    omega
  have hblen : b.length = (encodeNdefMessageUri u).length + 3 +
      (4 - ((encodeNdefMessageUri u).length + 3) % 4) % 4 := by
    rw [hb]
    simp only [List.length_cons, List.length_append, List.length_replicate]
    omega
  constructor
  · omega
  · rw [hblen]
    omega

/-- **C2.** (amended: when the very first page write — the zero-length
placeholder itself — fails, page 4 keeps its previous blank content
rather than the `03 00 00 00` placeholder the claim asserts; every other
part of the claim holds.)  For a blank CC-formatted 45-page tag and a
record produced by `create_ndef_record` from a printable nonempty URI
that fits the data area: under an all-successful oracle the write
reports success and a subsequent decode yields exactly the original
URI; if the first page-write failure occurs at call index `j` — any
index up to and including the final header rewrite — the write reports
failure and a decode of the tag yields no message at all (never a
corrupted partial URL), and when at least the placeholder write landed
(`1 ≤ j`) page 4 holds the zero-length placeholder `03 00 00 00`. -/
theorem c2_write_atomicity (o : Nat → WOut) (t : Tag) (u b : List Nat)
    (hlen : t.length = 45)
    (hblank : ∀ q, q ∈ List.range' 4 36 → pageOf t q = [0, 0, 0, 0])
    (hcc : pageOf t 3 = [0xE1, 0x10, 0x12, 0x00])
    (hu : ∀ x ∈ u, 32 ≤ x ∧ x < 128) (hne : u ≠ [])
    (henc : create_ndef_record u = some b) (hfit : b.length ≤ 144) :
    ((∀ n, o n = WOut.ok) →
      (write_ndef_message o 0 t b).1 = true ∧
      read_ndef_message (write_ndef_message o 0 t b).2.1 = some u) ∧
    (∀ j, j ≤ b.length / 4 → (∀ n, n < j → o n = WOut.ok) → o j = WOut.fail →
      (write_ndef_message o 0 t b).1 = false ∧
      read_ndef_message (write_ndef_message o 0 t b).2.1 = none ∧
      (1 ≤ j → pageOf (write_ndef_message o 0 t b).2.1 4 = [0x03, 0x00, 0x00, 0x00])) := by
  have hlf := create_len_facts u b henc
  have hblank' : ∀ q, 4 ≤ q → q < 40 → pageOf t q = [0, 0, 0, 0] := by
    intro q h1 h2
    exact hblank q (List.mem_range'_1.mpr ⟨h1, by omega⟩)
  have hcc' : (pageOf t 3).length = 4 ∧ (pageOf t 3).getD 0 0 = 0xE1 ∧
      (pageOf t 3).getD 1 0 = 0x10 := by
    rw [hcc]
    exact ⟨rfl, rfl, rfl⟩
  constructor
  · intro hok
    exact ⟨(write_ndef_message_allok o hok t b (by omega) hlf.2 hfit hlen).1,
      write_allok_read o hok t hlen u b hu hne henc hfit⟩
  · intro j hj hpre hf
    exact write_firstfail_read_none o t hlen hblank' hcc' u b hu henc hfit j hpre hf hj

set_option maxRecDepth 8000 in
/-- Counterexample to C2 as literally stated: the oracle failing at call
index 0 (the placeholder write itself) leaves page 4 blank, not holding
the `03 00 00 00` placeholder. -/
theorem c2_counterexample :
    (write_ndef_message wFail 0 blankTag ((create_ndef_record urlA).getD [])).1 = false ∧
    pageOf (write_ndef_message wFail 0 blankTag ((create_ndef_record urlA).getD [])).2.1 4
      = [0, 0, 0, 0] ∧
    ([0, 0, 0, 0] : List Nat) ≠ [0x03, 0x00, 0x00, 0x00] := by
  exact ⟨by rfl, by rfl, by decide⟩

set_option maxRecDepth 8000 in
/-- Witness for C2: the blank tag and the URL `http://a`, under the
all-ok oracle and under the always-fail oracle (first failure at the
placeholder). -/
theorem c2_write_atomicity_witness :
    ((write_ndef_message wOk 0 blankTag ((create_ndef_record urlA).getD [])).1 = true ∧
      read_ndef_message
        (write_ndef_message wOk 0 blankTag ((create_ndef_record urlA).getD [])).2.1
        = some urlA) ∧
    ((write_ndef_message wFail 0 blankTag ((create_ndef_record urlA).getD [])).1 = false ∧
      read_ndef_message
        (write_ndef_message wFail 0 blankTag ((create_ndef_record urlA).getD [])).2.1
        = none) := by
  constructor
  · exact (c2_write_atomicity wOk blankTag urlA ((create_ndef_record urlA).getD [])
      (by rfl) (by decide) (by rfl) (by decide) (by decide) (by rfl) (by decide)).1
      (fun n => rfl)
  · have h := (c2_write_atomicity wFail blankTag urlA ((create_ndef_record urlA).getD [])
      (by rfl) (by decide) (by rfl) (by decide) (by decide) (by rfl) (by decide)).2
      0 (Nat.zero_le _) (fun n hn => absurd hn (Nat.not_lt_zero n)) (by rfl)
    exact ⟨h.1, h.2.1⟩

/-!
### C5 and C6: overwrite guard and update-mode cursor discipline
-/

/-- A page write never touches any other page. -/
theorem pageWrite_other (o : Nat → WOut) (k : Nat) (t : Tag) (p : Nat) (d : List Nat)
    (q : Nat) (hq : q ≠ p) :
    pageOf (pageWrite o k t p d).2.1 q = pageOf t q := by
  unfold pageWrite
  cases ho : o k
  · rw [pageOf_set, if_neg (by simp [hq])]
  · rfl
  · rfl

/-- `set_password_protection` only writes the configuration pages
`0x29`‥`0x2C`. -/
theorem set_password_pages (o : Nat → WOut) (k : Nat) (t : Tag) (pw : List Nat)
    (q : Nat) (h1 : q ≠ 0x29) (h2 : q ≠ 0x2A) (h3 : q ≠ 0x2B) (h4 : q ≠ 0x2C) :
    pageOf (set_password_protection o k t pw).2.1 q = pageOf t q := by
  unfold set_password_protection
  dsimp only
  split_ifs with hb1 hb2 hb3 <;>
    simp only [pageWrite_other, h1, h2, h3, h4, ne_eq, not_false_eq_true]

/-- `lock_tag_permanently` only writes page 2. -/
theorem lock_pages (o : Nat → WOut) (k : Nat) (t : Tag) (q : Nat) (hq : q ≠ 2) :
    pageOf (lock_tag_permanently o k t).2.1 q = pageOf t q := by
  unfold lock_tag_permanently
  exact pageWrite_other _ _ _ _ _ _ hq

/-- The protection step of `handle_write_mode` leaves the data pages
(and the CC) untouched. -/
theorem writeProtectStep_pages (o : Nat → WOut) (st : HState) (t : Tag) (k : Nat)
    (q : Nat) (hq2 : q ≠ 2) (h1 : q ≠ 0x29) (h2 : q ≠ 0x2A) (h3 : q ≠ 0x2B)
    (h4 : q ≠ 0x2C) :
    pageOf (writeProtectStep o st t k).2.1 q = pageOf t q := by
  unfold writeProtectStep
  by_cases hc1 : st.use_password = true ∧ st.tag_password ≠ []
  · rw [if_pos hc1]
    exact set_password_pages _ _ _ _ _ h1 h2 h3 h4
  · rw [if_neg hc1]
    by_cases hc2 : st.lock_tags = true
    · rw [if_pos hc2]
      exact lock_pages _ _ _ _ hq2
    · rw [if_neg hc2]

/-- The protection step does not change what a read of the tag
decodes. -/
theorem read_writeProtectStep (o : Nat → WOut) (st : HState) (t : Tag) (k : Nat) :
    read_ndef_message (writeProtectStep o st t k).2.1 = read_ndef_message t := by
  unfold read_ndef_message readTagData
  congr 1
  apply readPagesLoop_congr
  intro p hp
  have hmem := List.mem_range'_1.mp hp
  exact writeProtectStep_pages o st t k p (by omega) (by omega) (by omega) (by omega)
    (by omega)

/-- **C5.** Write-mode overwrite guard on an unlocked tag with existing
valid-URL content: with `allow_overwrite = false` the handler fires only
the "Write blocked: tag has existing data" write callback and — for
every write oracle — leaves state and tag untouched; with
`allow_overwrite = true` (on a writable 45-page tag, a URL whose record
fits, all page writes succeeding) the tag afterwards decodes as the
configured URL and the write callback message begins with "Written". -/
theorem c5_overwrite_guard (o : Nat → WOut) (st : HState) (t : Tag) (u : List Nat)
    (hurl : st.url_to_write = some u) (hune : u ≠ [])
    (hunlocked : is_tag_locked t = false)
    (hcontent : (_has_ndef_content t).1 = true) :
    (st.allow_overwrite = false →
      ∀ o' : Nat → WOut, handle_write_mode o' st t =
        (st, t, [Ev.evWrite "Write blocked: tag has existing data"])) ∧
    (st.allow_overwrite = true → (∀ n, o n = WOut.ok) → t.length = 45 →
      (∀ x ∈ u, 32 ≤ x ∧ x < 128) →
      ∀ b, create_ndef_record u = some b → b.length ≤ 144 →
      read_ndef_message (handle_write_mode o st t).2.1 = some u ∧
      ∃ s rest, (handle_write_mode o st t).2.2 =
        Ev.evWrite ("Written" ++ s) :: rest) := by
  constructor
  · intro hov o'
    have hex : (_has_ndef_content t).1 = true ∧ st.allow_overwrite = false :=
      ⟨hcontent, hov⟩
    simp [handle_write_mode, hurl, hune, hunlocked, hex]
  · intro hov hok hlen hu b henc hfit
    have hlf := create_len_facts u b henc
    have hwt := write_ndef_message_allok o hok t b (by omega) hlf.2 hfit hlen
    have hread := write_allok_read o hok t hlen u b hu hune henc hfit
    have hrp := read_writeProtectStep o st (write_ndef_message o 0 t b).2.1
      (write_ndef_message o 0 t b).2.2
    constructor
    · simp [handle_write_mode, hurl, hune, hunlocked, hov, henc, hwt.1, hread, hrp]
    · simp [handle_write_mode, hurl, hune, hunlocked, hov, henc, hwt.1, hread, hrp]
      exact ⟨_, String.append_assoc _ _ _⟩

set_option maxRecDepth 8000 in
/-- Witness for C5: `tagA` (carries `http://a`) under `stW`
(`allow_overwrite = false`) is blocked and untouched; with the flag set
it is rewritten and the callback message begins with "Written". -/
theorem c5_overwrite_guard_witness :
    handle_write_mode wFail stW tagA =
      (stW, tagA, [Ev.evWrite "Write blocked: tag has existing data"]) ∧
    (read_ndef_message
        (handle_write_mode wOk { stW with allow_overwrite := true } tagA).2.1
        = some urlA ∧
      ∃ s rest, (handle_write_mode wOk { stW with allow_overwrite := true } tagA).2.2 =
        Ev.evWrite ("Written" ++ s) :: rest) := by
  constructor
  · exact (c5_overwrite_guard wOk stW tagA urlA rfl (by decide) (by rfl) (by rfl)).1
      rfl wFail
  · exact (c5_overwrite_guard wOk { stW with allow_overwrite := true } tagA urlA rfl
      (by decide) (by rfl) (by rfl)).2 rfl (fun n => rfl) (by rfl) (by decide)
      ((create_ndef_record urlA).getD []) (by rfl) (by decide)

/-- **C6.** Update-mode cursor discipline in the `write_new` step: a
missing (or empty) pending URL emits only the defensive error and resets
the cursor to `scan_old`; a locked or non-blank destination tag emits
only a log message and leaves cursor and pending state unchanged; a
create failure, a page-write failure, and a read-back mismatch each emit
the update callback with `success = false` and leave the cursor and both
pending URLs unchanged (so the same destination can be retried); a
successful verified write locks the tag, emits the update callback with
`(original, new, success = true)`, resets the cursor to `scan_old` and
clears both pending URLs. -/
theorem c6_update_cursor (o : Nat → WOut) (rw : List Nat → List Nat × Bool)
    (st : HState) (t : Tag) (hstep : st.update_step = "write_new") :
    (st.pending_rewrite_url = none ∨ st.pending_rewrite_url = some [] →
      handle_update_mode o rw st t =
        ({ st with update_step := "scan_old" }, t,
          [Ev.evLog "No pending URL - scan old tag first" "error"])) ∧
    (∀ pr, st.pending_rewrite_url = some pr → pr ≠ [] →
      (is_tag_locked t = true →
        handle_update_mode o rw st t =
          (st, t, [Ev.evLog "Locked tag - writing prevented" "error"])) ∧
      (is_tag_locked t = false → (_has_ndef_content t).1 = true →
        handle_update_mode o rw st t =
          (st, t, [Ev.evLog "Tag has data - use blank tag" "warning"])) ∧
      (is_tag_locked t = false → (_has_ndef_content t).1 = false →
        (create_ndef_record pr = none →
          handle_update_mode o rw st t =
            (st, t, [Ev.evLog "Write error" "error",
              Ev.evUpdate st.pending_original_url (some pr) false])) ∧
        (∀ msg, create_ndef_record pr = some msg →
          ((write_ndef_message o 0 t msg).1 = false →
            handle_update_mode o rw st t =
              (st, (write_ndef_message o 0 t msg).2.1,
                [Ev.evLog "Write failed" "error",
                  Ev.evUpdate st.pending_original_url (some pr) false])) ∧
          ((write_ndef_message o 0 t msg).1 = true →
            read_ndef_message (write_ndef_message o 0 t msg).2.1 ≠ some pr →
            handle_update_mode o rw st t =
              (st, (write_ndef_message o 0 t msg).2.1,
                [Ev.evLog "Locked tag - writing prevented" "error",
                  Ev.evUpdate st.pending_original_url (some pr) false])) ∧
          ((write_ndef_message o 0 t msg).1 = true →
            read_ndef_message (write_ndef_message o 0 t msg).2.1 = some pr →
            handle_update_mode o rw st t =
              ({ st with
                  update_step := "scan_old",
                  pending_rewrite_url := none,
                  pending_original_url := none,
                  cards_processed := st.cards_processed + 1 },
                (lock_tag_permanently o (write_ndef_message o 0 t msg).2.2
                  (write_ndef_message o 0 t msg).2.1).2.1,
                [Ev.evUpdate st.pending_original_url (some pr) true]))))) := by
  refine ⟨?_, ?_⟩
  · intro h
    rcases h with h | h <;> simp [handle_update_mode, hstep, h]
  · intro pr hpr hprne
    refine ⟨?_, ?_, ?_⟩
    · intro hlock
      simp [handle_update_mode, hstep, hpr, hprne, hlock]
    · intro hlock hcont
      simp [handle_update_mode, hstep, hpr, hprne, hlock, hcont]
    · intro hlock hcont
      refine ⟨?_, ?_⟩
      · intro hcr
        simp [handle_update_mode, hstep, hpr, hprne, hlock, hcont, hcr]
      · intro msg hcr
        refine ⟨?_, ?_, ?_⟩
        · intro hw
          simp [handle_update_mode, hstep, hpr, hprne, hlock, hcont, hcr, hw]
        · intro hw hrv
          simp [handle_update_mode, hstep, hpr, hprne, hlock, hcont, hcr, hw, hrv]
        · intro hw hrv
          simp [handle_update_mode, hstep, hpr, hprne, hlock, hcont, hcr, hw, hrv]

set_option maxRecDepth 8000 in
/-- Witness for C6: the successful update cycle on a blank tag with
pending URL `http://a` — callback fires with `success = true`, cursor
returns to `scan_old`, both pending URLs are cleared. -/
theorem c6_update_cursor_witness :
    handle_update_mode wOk (fun l => (l, false))
      { stW with update_step := "write_new", pending_rewrite_url := some urlA }
      blankTag =
      ({ stW with
          update_step := "scan_old",
          pending_rewrite_url := none,
          pending_original_url := none,
          cards_processed := 1 },
        (lock_tag_permanently wOk
          (write_ndef_message wOk 0 blankTag ((create_ndef_record urlA).getD [])).2.2
          (write_ndef_message wOk 0 blankTag ((create_ndef_record urlA).getD [])).2.1).2.1,
        [Ev.evUpdate none (some urlA) true]) := by
  exact ((((c6_update_cursor wOk (fun l => (l, false))
      { stW with update_step := "write_new", pending_rewrite_url := some urlA }
      blankTag rfl).2 urlA rfl (by decide)).2.2 (by rfl) (by rfl)).2
    ((create_ndef_record urlA).getD []) (by rfl)).2.2 (by rfl) (by rfl)

end NFC
